import Mathlib

/-!
# Tunnel-Manager: peer registry, address allocator and config renderer

A shallow embedding of the Go sources `crypto.go`, `db.go`, `peers.go`,
`manager.go` and `wireguard.go`, followed by theorems about it.

Modelling conventions
* A Go `string` is a `List Char` (`Str`).  Only concatenation, equality,
  `strings.HasPrefix`, `strings.TrimSuffix`, `strings.Split` on the one-byte
  separator `"\n"` and `strings.Join` are used by the sources, and these act
  on the element sequence alike for bytes and characters.
* The `peers` table is the list of its rows in rowid order; a rowid is
  handed out as the largest rowid plus one, so `INSERT` appends.  A query
  without `ORDER BY` is a table scan in this order.
* `net.ParseCIDR` is standard-library code.  Its argument is kept in parsed
  form (`CIDR`); `ParseCIDR` builds the values the library documents.
* The random source and the clock are inputs of `CreatePeer` (`Env`).
  Failures of the storage layer other than constraint violations are not
  part of the model.
-/

set_option autoImplicit false

namespace TunnelManager

/-- Go string. -/
abbrev Str := List Char

deriving instance DecidableEq for Except

/-! ## Package `strings` -/

/-- Go `strings.HasPrefix(s, pre)`. -/
def HasPrefix (s pre : Str) : Bool := pre.isPrefixOf s

/-- Go `strings.HasSuffix(s, suf)`. -/
def HasSuffix (s suf : Str) : Bool := suf.isSuffixOf s

/-- Go `strings.TrimSuffix(s, suf)`: `s` without the trailing `suf` when it
ends in it, and `s` itself otherwise. -/
def TrimSuffix (s suf : Str) : Str :=
  if HasSuffix s suf then s.take (s.length - suf.length) else s

/-- Go `strings.Split(s, sep)` for a one-byte separator: the pieces between
the occurrences of `sep`; the empty string yields one empty piece. -/
def Split (sep : Char) : Str → List Str
  | [] => [[]]
  | c :: cs =>
    if c = sep then [] :: Split sep cs
    else
      match Split sep cs with
      | [] => [[c]]
      | l :: ls => (c :: l) :: ls

/-- Go `strings.Join(elems, sep)`. -/
def Join (elems : List Str) (sep : Str) : Str :=
  match elems with
  | [] => []
  | [e] => e
  | e :: es => e ++ sep ++ Join es sep

/-- Decimal rendering of a natural number (the `%d` verb, and the octets of
a dotted IPv4 address). -/
def fmtNat (n : Nat) : Str := Nat.toDigits 10 n

/-- The `%d` verb of `fmt.Sprintf` on a Go `int`. -/
def fmtInt (n : Int) : Str :=
  if n < 0 then '-' :: fmtNat n.natAbs else fmtNat n.natAbs

/-! ## Package `net` -/

/-- Go `net.IP` and `net.IPMask`: byte slices; `nil` is the empty list. -/
abbrev IP := List Nat

/-- The 12-byte head of an IPv4-mapped IPv6 address. -/
def v4InV6Prefix : IP := [0, 0, 0, 0, 0, 0, 0, 0, 0, 0, 0xff, 0xff]

/-- The loop of `net.CIDRMask`: `l` bytes carrying `n` leading one bits. -/
def cidrMaskLoop : Nat → Nat → IP
  | 0, _ => []
  | l + 1, n =>
    if 8 ≤ n then 0xff :: cidrMaskLoop l (n - 8)
    else (0xff ^^^ (0xff >>> n)) :: cidrMaskLoop l 0

/-- Go `net.CIDRMask(ones, bits)`. -/
def CIDRMask (ones bits : Nat) : IP :=
  if bits ≠ 32 ∧ bits ≠ 128 then []
  else if bits < ones then []
  else cidrMaskLoop (bits / 8) ones

/-- Go `IP.Mask`. -/
def IP.Mask (ip mask : IP) : IP :=
  let mask :=
    if mask.length = 16 ∧ ip.length = 4 ∧ (mask.take 12).all (fun b => b == 0xff)
    then mask.drop 12 else mask
  let ip :=
    if mask.length = 4 ∧ ip.length = 16 ∧ ip.take 12 = v4InV6Prefix
    then ip.drop 12 else ip
  if ip.length ≠ mask.length then [] else List.zipWith (fun x m => x &&& m) ip mask

/-- Go `IP.To4`: the 4-byte form of an IPv4 address, `nil` for anything else. -/
def IP.To4 (ip : IP) : IP :=
  if ip.length = 4 then ip
  else if ip.length = 16 ∧ (ip.take 10).all (fun b => b == 0) ∧
      ip.get? 10 = some 0xff ∧ ip.get? 11 = some 0xff then (ip.drop 12).take 4
  else []

/-- Go `IP.String` on an address with a 4-byte form: dotted decimal.  The
IPv6 text form is left empty: `allocateIPTx` asks for the text of addresses
with a 4-byte form only (`To4_of_base`). -/
def IP.String (ip : IP) : Str :=
  match IP.To4 ip with
  | [a, b, c, d] =>
    fmtNat a ++ '.' :: (fmtNat b ++ '.' :: (fmtNat c ++ '.' :: fmtNat d))
  | _ => []

/-- Go `net.IPNet`. -/
structure IPNet where
  IP : TunnelManager.IP
  Mask : TunnelManager.IP
  deriving DecidableEq, Repr

/-- The argument of `net.ParseCIDR`, by what the parser reads in it:
`a.b.c.d/ones`, a 16-byte IPv6 address with a length, or malformed text. -/
inductive CIDR where
  | malformed
  | v4 (a b c d ones : Nat)
  | v6 (addr : IP) (ones : Nat)
  deriving DecidableEq, Repr

/-- Go `net.ParseCIDR`: the address in 16-byte form and the network. -/
def ParseCIDR : CIDR → Option (IP × IPNet)
  | .malformed => none
  | .v4 a b c d ones =>
    if a < 256 ∧ b < 256 ∧ c < 256 ∧ d < 256 ∧ ones ≤ 32 then
      let ip := v4InV6Prefix ++ [a, b, c, d]
      let m := CIDRMask ones 32
      some (ip, { IP := IP.Mask ip m, Mask := m })
    else none
  | .v6 addr ones =>
    if addr.length = 16 ∧ (addr.all fun x => decide (x < 256)) ∧ ones ≤ 128 then
      let m := CIDRMask ones 128
      some (addr, { IP := IP.Mask addr m, Mask := m })
    else none

/-! ## `peers.go` -/

/-- Go `Peer`; `CreatedAt` is the stored timestamp as an ordinal. -/
structure Peer where
  ID : Str
  Name : Str
  PublicKey : Str
  PrivateKey : Str
  AllowedIP : Str
  Enabled : Bool
  CreatedAt : Nat
  deriving DecidableEq, Repr

/-- The errors the registry returns. -/
inductive Error where
  | errPeerExists
  | errPeerNotFound
  | parseCidr
  | unsupportedIPFamily
  | noAvailableIPs
  | generatePrivateKey
  | generateID
  | constraintFailed
  | scanNull
  deriving DecidableEq, Repr

/-! ## `db.go`: the table -/

/-- A row of table `peers` (`ensureSchema`); `private_key` is nullable. -/
structure Row where
  id : Str
  name : Str
  public_key : Str
  private_key : Option Str
  allowed_ip : Str
  enabled : Bool
  created_at : Nat
  deriving DecidableEq, Repr

/-- The table `peers`, rows in rowid order. -/
abbrev Store := List Row

/-! ## `crypto.go` -/

/-- The scan `for i := 2; i < 255; i++` of `allocateIPTx`, at index `i` with
`n` iterations left: the first candidate not in the used set. -/
def scanHosts (base4 : IP) (usedIPs : List Str) : Nat → Nat → Option Str
  | _, 0 => none
  | i, n + 1 =>
    let nextIP := (base4.take 4).set 3 (i % 256)
    if IP.String nextIP ∈ usedIPs then scanHosts base4 usedIPs (i + 1) n
    else some (IP.String nextIP)

/-- The keys of the map `usedIPs` of `allocateIPTx`: the address of the
CIDR itself and every stored `allowed_ip` without its `/32`. -/
def usedIPs (tx : Store) (ip : IP) : List Str :=
  IP.String ip :: tx.map (fun r => TrimSuffix r.allowed_ip "/32".toList)

/-- Go `allocateIPTx`. -/
def allocateIPTx (tx : Store) (cidr : CIDR) : Except Error Str :=
  match ParseCIDR cidr with
  | none => .error .parseCidr
  | some (ip, ipNet) =>
    let baseIP := IP.Mask ip ipNet.Mask
    if IP.To4 baseIP = [] then .error .unsupportedIPFamily
    else
      match scanHosts (IP.To4 baseIP) (usedIPs tx ip) 2 253 with
      | some s => .ok s
      | none => .error .noAvailableIPs

/-! ## `db.go`: operations -/

/-- What `CreatePeer` draws from outside: the result of `generateKeyPair`
(private key, public key), of `generateID`, and of `time.Now`; `none` is a
failed read of the random source. -/
structure Env where
  keyPair : Option (Str × Str)
  id : Option Str
  now : Nat
  deriving DecidableEq, Repr

/-- The `INSERT` of `CreatePeer` under the table constraints: primary key
`id`, and `name`, `public_key`, `allowed_ip` unique. -/
def insertRow (s : Store) (r : Row) : Option Store :=
  if s.any (fun x => x.id == r.id || x.name == r.name ||
      x.public_key == r.public_key || x.allowed_ip == r.allowed_ip)
  then none else some (s ++ [r])

/-- The values `CreatePeer` binds to the columns of its `INSERT`. -/
def peerRow (peer : Peer) : Row :=
  { id := peer.ID, name := peer.Name, public_key := peer.PublicKey,
    private_key := some peer.PrivateKey, allowed_ip := peer.AllowedIP,
    enabled := peer.Enabled, created_at := peer.CreatedAt }

/-- Go `Store.CreatePeer`: the result and the table afterwards (the table
itself on every rolled-back path). -/
def CreatePeer (s : Store) (name : Str) (cidr : CIDR) (env : Env) :
    Except Error Peer × Store :=
  let existing := (s.filter (fun r => r.name == name)).length
  if existing > 0 then (.error .errPeerExists, s)
  else
    match env.keyPair with
    | none => (.error .generatePrivateKey, s)
    | some (privKey, pubKey) =>
      match allocateIPTx s cidr with
      | .error e => (.error e, s)
      | .ok ip =>
        match env.id with
        | none => (.error .generateID, s)
        | some id =>
          let peer : Peer :=
            { ID := id, Name := name, PublicKey := pubKey, PrivateKey := privKey,
              AllowedIP := ip ++ "/32".toList, Enabled := true, CreatedAt := env.now }
          match insertRow s (peerRow peer) with
          | none => (.error .constraintFailed, s)
          | some s' => (.ok peer, s')

/-- Go `Store.RemovePeer`: the `DELETE ... WHERE name = ?` and the check of
the affected row count. -/
def RemovePeer (s : Store) (name : Str) : Except Error Unit × Store :=
  let s' := s.filter (fun r => !(r.name == name))
  let rows := s.length - s'.length
  if rows = 0 then (.error .errPeerNotFound, s') else (.ok (), s')

/-- The `ORDER BY created_at` of `ListPeers`, one row placed: after the
rows created no later. -/
def insertByCreatedAt (r : Row) : List Row → List Row
  | [] => [r]
  | x :: xs =>
    if r.created_at < x.created_at then r :: x :: xs
    else x :: insertByCreatedAt r xs

/-- The `ORDER BY created_at` of `ListPeers`: the rows by ascending
timestamp, rows of equal timestamp in table order. -/
def orderByCreatedAt (s : Store) : List Row :=
  s.foldl (fun acc r => insertByCreatedAt r acc) []

/-- The `rows.Scan` loop of `ListPeers`; a NULL `private_key` does not
convert to a Go string. -/
def scanRows : List Row → Except Error (List Peer)
  | [] => .ok []
  | r :: rs =>
    match r.private_key with
    | none => .error .scanNull
    | some k =>
      match scanRows rs with
      | .error e => .error e
      | .ok ps =>
        .ok ({ ID := r.id, Name := r.name, PublicKey := r.public_key, PrivateKey := k,
               AllowedIP := r.allowed_ip, Enabled := r.enabled,
               CreatedAt := r.created_at } :: ps)

/-- Go `Store.ListPeers`. -/
def ListPeers (s : Store) : Except Error (List Peer) :=
  scanRows (orderByCreatedAt s)

/-- Go `Store.EnabledPeers`: `SELECT public_key, allowed_ip FROM peers WHERE
enabled = 1`, each row scanned into a zero `Peer`. -/
def EnabledPeers (s : Store) : Except Error (List Peer) :=
  .ok ((s.filter (fun r => r.enabled)).map (fun r =>
    { ID := [], Name := [], PublicKey := r.public_key, PrivateKey := [],
      AllowedIP := r.allowed_ip, Enabled := false, CreatedAt := 0 }))

/-! ## `config.go` -/

/-- Go `Config`. -/
structure Config where
  Interface : Str
  ListenPort : Int
  Address : Str
  Endpoint : Str
  PrivateKey : Str
  PublicKey : Str
  DNS : Str
  DataDir : Str
  NATInterface : Str
  deriving DecidableEq, Repr

/-! ## `wireguard.go` -/

/-- Go `generateServerConfig`; `goos` is `runtime.GOOS`. -/
def generateServerConfig (goos : Str) (cfg : Config) (peers : List Peer) : Str :=
  let sb : Str := []
  let sb := sb ++ "[Interface]\n".toList
  let sb := sb ++ ("PrivateKey = ".toList ++ cfg.PrivateKey ++ "\n".toList)
  let sb := sb ++ ("Address = ".toList ++ cfg.Address ++ "\n".toList)
  let sb := sb ++ ("ListenPort = ".toList ++ fmtInt cfg.ListenPort ++ "\n".toList)
  let sb :=
    if cfg.NATInterface ≠ [] ∧ goos = "linux".toList then
      let sb := sb ++
        ("PostUp = iptables -A FORWARD -i %i -j ACCEPT; iptables -t nat -A POSTROUTING -o ".toList
          ++ cfg.NATInterface ++ " -j MASQUERADE\n".toList)
      sb ++
        ("PostDown = iptables -D FORWARD -i %i -j ACCEPT; iptables -t nat -D POSTROUTING -o ".toList
          ++ cfg.NATInterface ++ " -j MASQUERADE\n".toList)
    else sb
  peers.foldl (fun sb peer =>
    let sb := sb ++ "\n[Peer]\n".toList
    let sb := sb ++ ("PublicKey = ".toList ++ peer.PublicKey ++ "\n".toList)
    sb ++ ("AllowedIPs = ".toList ++ peer.AllowedIP ++ "\n".toList)) sb

/-- Go `generateClientConfig`. -/
def generateClientConfig (cfg : Config) (peer : Peer) : Str :=
  let sb : Str := []
  let sb := sb ++ "[Interface]\n".toList
  let sb := sb ++ ("PrivateKey = ".toList ++ peer.PrivateKey ++ "\n".toList)
  let sb := sb ++ ("Address = ".toList ++ peer.AllowedIP ++ "\n".toList)
  let sb := if cfg.DNS ≠ [] then sb ++ ("DNS = ".toList ++ cfg.DNS ++ "\n".toList) else sb
  let sb := sb ++ "\n[Peer]\n".toList
  let sb := sb ++ ("PublicKey = ".toList ++ cfg.PublicKey ++ "\n".toList)
  let sb :=
    if cfg.Endpoint ≠ [] then sb ++ ("Endpoint = ".toList ++ cfg.Endpoint ++ "\n".toList)
    else sb
  let sb := sb ++ "AllowedIPs = 0.0.0.0/0\n".toList
  sb ++ "PersistentKeepalive = 25\n".toList

/-- One iteration of the loop of `extractPeerConfig`, on the pair of
`inPeer` and `result`. -/
def extractStep (st : Bool × List Str) (line : Str) : Bool × List Str :=
  let inPeer :=
    if HasPrefix line "[Peer]".toList then true
    else if HasPrefix line "[Interface]".toList then false
    else st.1
  (inPeer, if inPeer then st.2 ++ [line] else st.2)

/-- Go `extractPeerConfig`. -/
def extractPeerConfig (config : Str) : Str :=
  let lines := Split '\n' config
  let st := lines.foldl extractStep (false, [])
  Join st.2 "\n".toList

/-! ## `manager.go` -/

/-- Go `Manager.ServerConfig`. -/
def ServerConfig (goos : Str) (cfg : Config) (store : Store) : Except Error Str :=
  match EnabledPeers store with
  | .error e => .error e
  | .ok peers => .ok (generateServerConfig goos cfg peers)

/-! ## Vocabulary of the statements and sample data -/

/-- The candidate address of iteration `i` of the scan, as text. -/
def candidate (base4 : IP) (i : Nat) : Str :=
  IP.String ((base4.take 4).set 3 (i % 256))

/-- Dotted-decimal text of the IPv4 address `a.b.c.d`. -/
def dotted (a b c d : Nat) : Str :=
  fmtNat a ++ '.' :: (fmtNat b ++ '.' :: (fmtNat c ++ '.' :: fmtNat d))

/-- Host identifier `i` is free for `a.b.c.d/24` over table `s`: `a.b.c.i`
is not the address of the CIDR itself and is no stored `allowed_ip` with its
`/32` stripped. -/
def isFree (s : Store) (a b c d i : Nat) : Prop :=
  dotted a b c i ≠ dotted a b c d ∧
    ∀ r ∈ s, TrimSuffix r.allowed_ip "/32".toList ≠ dotted a b c i

/-- Sample inputs of `CreatePeer`: key pair, identifier and clock reading. -/
def sampleEnv (k : String) (t : Nat) : Env :=
  { keyPair := some (("priv-" ++ k).toList, ("pub-" ++ k).toList),
    id := some ("id-" ++ k).toList, now := t }

/-- The peer the first creation of the sample run returns. -/
def alicePeer : Peer :=
  { ID := "id-a".toList, Name := "alice".toList, PublicKey := "pub-a".toList,
    PrivateKey := "priv-a".toList, AllowedIP := "10.0.0.2/32".toList,
    Enabled := true, CreatedAt := 1 }

/-- The peer the second creation of the sample run returns. -/
def bobPeer : Peer :=
  { ID := "id-b".toList, Name := "bob".toList, PublicKey := "pub-b".toList,
    PrivateKey := "priv-b".toList, AllowedIP := "10.0.0.3/32".toList,
    Enabled := true, CreatedAt := 2 }

/-- The address of the peer a call of `CreatePeer` returned. -/
def issued (r : Except Error Peer × Store) : Except Error Str :=
  match r.1 with
  | .ok p => .ok p.AllowedIP
  | .error e => .error e

/-- A run of `CreatePeer` calls on one prefix in which every call succeeds:
the peers returned, in call order, and the table at the end; `none` when a
call fails. -/
def createAll (cidr : CIDR) : Store → List (Str × Env) → Option (List Peer × Store)
  | s, [] => some ([], s)
  | s, (name, env) :: rest =>
    match CreatePeer s name cidr env with
    | (.ok p, s') =>
      match createAll cidr s' rest with
      | some (ps, sf) => some (p :: ps, sf)
      | none => none
    | (.error _, _) => none

/-- The value of a decimal numeral. -/
def decodeNat (s : Str) : Nat :=
  s.foldl (fun acc ch => acc * 10 + (ch.toNat - 48)) 0

/-- The `allowed_ip` issued `k`-th (from 0) on a fresh /24 table. -/
def nthAddr (a b c k : Nat) : Str := dotted a b c (k + 2) ++ "/32".toList

/-- The table holds the first `m` addresses of `a.b.c.0/24`, in order. -/
def filled (a b c m : Nat) (s : Store) : Prop :=
  s.map (fun r => r.allowed_ip) = (List.range m).map (nthAddr a b c)

/-- The `k`-th call of the sample run that fills a /24. -/
def sampleCall (k : Nat) : Str × Env :=
  ('n' :: fmtNat k,
    { keyPair := some ('s' :: fmtNat k, 'p' :: fmtNat k), id := some ('i' :: fmtNat k),
      now := k })

/-- The peer the `k`-th call of the sample run returns. -/
def samplePeer (a b c k : Nat) : Peer :=
  { ID := 'i' :: fmtNat k, Name := 'n' :: fmtNat k, PublicKey := 'p' :: fmtNat k,
    PrivateKey := 's' :: fmtNat k, AllowedIP := nthAddr a b c k, Enabled := true,
    CreatedAt := k }

/-- The address text `addr` (with its `/32`) lies within the network: it is
the dotted text of four octets that, masked with the mask of the network,
give the base address of the network. -/
def inNetwork (addr : Str) (ipNet : IPNet) : Prop :=
  ∃ w x y z : Nat, w < 256 ∧ x < 256 ∧ y < 256 ∧ z < 256 ∧
    addr = dotted w x y z ++ "/32".toList ∧ IP.Mask [w, x, y, z] ipNet.Mask = ipNet.IP

/-- The text made of the given lines, each closed by a line break. -/
def unlines (ls : List Str) : Str := (ls.map (fun l => l ++ ['\n'])).flatten

/-- The loop of `extractPeerConfig` as a function of the lines left: the
lines it appends, entered with the given `inPeer`. -/
def keptLines : Bool → List Str → List Str
  | _, [] => []
  | b, l :: ls =>
    let inPeer :=
      if HasPrefix l "[Peer]".toList then true
      else if HasPrefix l "[Interface]".toList then false
      else b
    (if inPeer then [l] else []) ++ keptLines inPeer ls

/-- The NAT rule lines of the `[Interface]` block: `PostUp` and `PostDown`
on Linux with a NAT interface set, none otherwise. -/
def natRuleLines (goos : Str) (cfg : Config) : List Str :=
  if cfg.NATInterface ≠ [] ∧ goos = "linux".toList then
    ["PostUp = iptables -A FORWARD -i %i -j ACCEPT; iptables -t nat -A POSTROUTING -o ".toList
        ++ cfg.NATInterface ++ " -j MASQUERADE".toList,
     "PostDown = iptables -D FORWARD -i %i -j ACCEPT; iptables -t nat -D POSTROUTING -o ".toList
        ++ cfg.NATInterface ++ " -j MASQUERADE".toList]
  else []

/-- The lines of the `[Interface]` block: header, `PrivateKey`, `Address`,
`ListenPort`, then the NAT rule lines. -/
def interfaceLines (goos : Str) (cfg : Config) : List Str :=
  ["[Interface]".toList, "PrivateKey = ".toList ++ cfg.PrivateKey,
   "Address = ".toList ++ cfg.Address, "ListenPort = ".toList ++ fmtInt cfg.ListenPort]
    ++ natRuleLines goos cfg

/-- The `[Interface]` block as text. -/
def interfaceBlock (goos : Str) (cfg : Config) : Str := unlines (interfaceLines goos cfg)

/-- The lines of the `[Peer]` block of one peer: a blank line, the header,
`PublicKey` and `AllowedIPs`. -/
def peerLines (peer : Peer) : List Str :=
  [[], "[Peer]".toList, "PublicKey = ".toList ++ peer.PublicKey,
   "AllowedIPs = ".toList ++ peer.AllowedIP]

/-- The `[Peer]` block of one peer as text. -/
def peerBlock (peer : Peer) : Str := unlines (peerLines peer)

/-- The `[Peer]` blocks of a peer list, one after the other. -/
def peerBlocks (peers : List Peer) : Str := (peers.map peerBlock).flatten

/-- The text fields `generateServerConfig` prints hold no line break. -/
def singleLineFields (cfg : Config) (peers : List Peer) : Prop :=
  '\n' ∉ cfg.PrivateKey ∧ '\n' ∉ cfg.Address ∧ '\n' ∉ cfg.NATInterface ∧
    ∀ p ∈ peers, '\n' ∉ p.PublicKey ∧ '\n' ∉ p.AllowedIP

/-- The lines of all `[Peer]` blocks of a peer list. -/
def allPeerLines (peers : List Peer) : List Str := (peers.map peerLines).flatten

/-- A sample configuration. -/
def sampleCfg : Config :=
  { Interface := "wg0".toList, ListenPort := 51820, Address := "10.0.0.1/24".toList,
    Endpoint := "vpn.example.org:51820".toList, PrivateKey := "c2VydmVy".toList,
    PublicKey := "cHVibGlj".toList, DNS := "1.1.1.1".toList, DataDir := [],
    NATInterface := [] }

/-- The sample configuration with an `Address` of two lines, the second
being a section header. -/
def twoLineAddressCfg : Config :=
  { sampleCfg with Address := "10.0.0.1/24\n[Peer]".toList }

/-- The lines of the client configuration before the optional `Endpoint`
line: the `[Interface]` block with the optional `DNS` line, a blank line,
the `[Peer]` header and `PublicKey`. -/
def clientHeadLines (cfg : Config) (peer : Peer) : List Str :=
  ["[Interface]".toList, "PrivateKey = ".toList ++ peer.PrivateKey,
   "Address = ".toList ++ peer.AllowedIP] ++
  (if cfg.DNS ≠ [] then ["DNS = ".toList ++ cfg.DNS] else []) ++
  [[], "[Peer]".toList, "PublicKey = ".toList ++ cfg.PublicKey]

/-- The optional `Endpoint` line. -/
def endpointLines (cfg : Config) : List Str :=
  if cfg.Endpoint ≠ [] then ["Endpoint = ".toList ++ cfg.Endpoint] else []

/-- The two fixed lines that close the client configuration. -/
def clientTailLines : List Str :=
  ["AllowedIPs = 0.0.0.0/0".toList, "PersistentKeepalive = 25".toList]

/-- A line of the form `Endpoint = ...`. -/
def isEndpointLine (l : Str) : Prop := HasPrefix l "Endpoint = ".toList = true

/-- The text has the line `l`. -/
def hasLine (text l : Str) : Prop := l ∈ Split '\n' text

/-- The sample configuration with no endpoint and a `DNS` of two lines, the
second reading as an `Endpoint` line. -/
def twoLineDnsCfg : Config :=
  { sampleCfg with Endpoint := [], DNS := "1.1.1.1\nEndpoint = 203.0.113.9:51820".toList }

/-- The table after alice is created at clock reading 5 and bob after her
at clock reading 3, the clock having been set back in between. -/
def clockStepStore : Store :=
  (CreatePeer (CreatePeer [] "alice".toList (.v4 10 0 0 1 24) (sampleEnv "a" 5)).2
    "bob".toList (.v4 10 0 0 1 24) (sampleEnv "b" 3)).2

/-- The public keys of a peer list result. -/
def publicKeys (r : Except Error (List Peer)) : Except Error (List Str) :=
  match r with
  | .ok ps => .ok (ps.map (fun p => p.PublicKey))
  | .error e => .error e

/-- A `[Peer]` header line: the line starts with the marker `[Peer]`. -/
def isPeerHeader (l : Str) : Bool := HasPrefix l "[Peer]".toList

/-- An `[Interface]` header line: the line starts with the marker
`[Interface]`. -/
def isInterfaceHeader (l : Str) : Bool := HasPrefix l "[Interface]".toList

/-- Line `i` (counted from 0) falls inside a `[Peer]` section: it is at or
after a `[Peer]` header line `j`, and no line after `j` up to `i` is an
`[Interface]` header line. -/
def inPeerSection (lines : List Str) (i : Nat) : Bool :=
  (List.range (i + 1)).any fun j =>
    isPeerHeader (lines.getD j []) &&
      (List.range (i + 1)).all fun k =>
        decide (k ≤ j) || !isInterfaceHeader (lines.getD k [])

/-- The lines that fall inside `[Peer]` sections, in their order. -/
def peerSectionLines (lines : List Str) : List Str :=
  (List.range lines.length).filterMap fun i =>
    if inPeerSection lines i then lines[i]? else none

/-- Whether the last of the given lines falls inside a `[Peer]` section;
`false` when there is no line. -/
def lastInPeerSection (lines : List Str) : Bool :=
  match lines.length with
  | 0 => false
  | n + 1 => inPeerSection lines n

/-- A hand-written text: a comment, a peer, an interface block in between,
and a second peer whose header carries a trailing comment. -/
def handEditedText : Str :=
  ("# office\n[Peer]\nPublicKey = A\n[Interface]\nAddress = 10.0.0.1/24\n" ++
    "[Peer] # laptop\nAllowedIPs = 10.0.0.9/32").toList

/-! ## Lemmas: strings -/

theorem TrimSuffix_append (s suf : Str) : TrimSuffix (s ++ suf) suf = s := by
  simp [TrimSuffix, HasSuffix]

/-! ## Lemmas: the host scan -/

theorem scanHosts_some (base4 : IP) (used : List Str) :
    ∀ (n i : Nat) (s : Str), scanHosts base4 used i n = some s →
      ∃ j, i ≤ j ∧ j < i + n ∧ s = candidate base4 j ∧ candidate base4 j ∉ used ∧
        ∀ k, i ≤ k → k < j → candidate base4 k ∈ used := by
  intro n
  induction n with
  | zero => intro i s h; simp [scanHosts] at h
  | succ n ih =>
    intro i s h
    simp only [scanHosts] at h
    split at h
    · rename_i hin
      obtain ⟨j, h1, h2, h3, h4, h5⟩ := ih (i + 1) s h
      refine ⟨j, by omega, by omega, h3, h4, ?_⟩
      intro k hk1 hk2
      by_cases hki : k = i
      · subst hki; exact hin
      · exact h5 k (by omega) hk2
    · rename_i hin
      refine ⟨i, le_refl _, by omega, ?_, hin, ?_⟩
      · simpa [candidate] using (Option.some.inj h).symm
      · intro k hk1 hk2; omega

theorem scanHosts_none (base4 : IP) (used : List Str) :
    ∀ (n i : Nat), (∀ k, i ≤ k → k < i + n → candidate base4 k ∈ used) →
      scanHosts base4 used i n = none := by
  intro n
  induction n with
  | zero => intro i _; rfl
  | succ n ih =>
    intro i h
    simp only [scanHosts]
    have hi : candidate base4 i ∈ used := h i (le_refl _) (by omega)
    rw [if_pos (by simpa [candidate] using hi)]
    exact ih (i + 1) (fun k hk1 hk2 => h k (by omega) (by omega))

/-! ## Lemmas: allocation and creation -/

theorem String_four (a b c d : Nat) : IP.String [a, b, c, d] = dotted a b c d := by
  simp [IP.String, IP.To4, dotted]

theorem allocateIPTx_ok {tx : Store} {cidr : CIDR} {s : Str}
    (h : allocateIPTx tx cidr = .ok s) :
    ∃ ip ipNet, ParseCIDR cidr = some (ip, ipNet) ∧
      IP.To4 (IP.Mask ip ipNet.Mask) ≠ [] ∧
      scanHosts (IP.To4 (IP.Mask ip ipNet.Mask)) (usedIPs tx ip) 2 253 = some s := by
  unfold allocateIPTx at h
  split at h
  · cases h
  · rename_i ip ipNet hp
    refine ⟨ip, ipNet, hp, ?_⟩
    simp only at h
    split at h
    · cases h
    · rename_i hne
      refine ⟨hne, ?_⟩
      split at h
      · rename_i s0 hs
        cases h
        exact hs
      · cases h

theorem CreatePeer_ok {s s' : Store} {name : Str} {cidr : CIDR} {env : Env} {peer : Peer}
    (h : CreatePeer s name cidr env = (.ok peer, s')) :
    (∀ r ∈ s, r.name ≠ name) ∧
    ∃ priv pub id ip, env.keyPair = some (priv, pub) ∧ env.id = some id ∧
      allocateIPTx s cidr = .ok ip ∧
      peer = { ID := id, Name := name, PublicKey := pub, PrivateKey := priv,
               AllowedIP := ip ++ "/32".toList, Enabled := true, CreatedAt := env.now } ∧
      insertRow s (peerRow peer) = some s' ∧ s' = s ++ [peerRow peer] := by
  unfold CreatePeer at h
  simp only at h
  split at h
  · cases h
  · rename_i hex
    constructor
    · intro r hr hn
      apply hex
      simp only [gt_iff_lt, List.length_pos]
      intro hnil
      have : r ∈ s.filter (fun r => r.name == name) := by
        simp [List.mem_filter, hr, hn]
      rw [hnil] at this
      cases this
    · split at h
      · cases h
      · rename_i priv pub hk
        split at h
        · cases h
        · rename_i ip hip
          split at h
          · cases h
          · rename_i id hid
            split at h
            · cases h
            · rename_i s1 hins
              simp only [Prod.mk.injEq, Except.ok.injEq] at h
              obtain ⟨hp, hs⟩ := h
              subst hs
              refine ⟨priv, pub, id, ip, hk, hid, hip, hp.symm, ?_, ?_⟩
              · rw [← hp]; exact hins
              · rw [← hp]
                unfold insertRow at hins
                split at hins
                · cases hins
                · exact (Option.some.inj hins).symm

theorem land_255 {a : Nat} (h : a < 256) : a &&& 255 = a :=
  @Nat.and_pow_two_sub_one_of_lt_two_pow 8 a h

theorem ParseCIDR_v4_24 {a b c d : Nat} {ip : IP} {ipNet : IPNet}
    (h : ParseCIDR (.v4 a b c d 24) = some (ip, ipNet)) :
    (a < 256 ∧ b < 256 ∧ c < 256 ∧ d < 256) ∧
    ip = v4InV6Prefix ++ [a, b, c, d] ∧ ipNet.Mask = [255, 255, 255, 0] ∧
    IP.To4 (IP.Mask ip ipNet.Mask) = [a, b, c, 0] ∧ IP.String ip = dotted a b c d := by
  simp only [ParseCIDR] at h
  split at h
  · rename_i hb
    simp only [Option.some.injEq, Prod.mk.injEq] at h
    obtain ⟨h1, h2⟩ := h
    subst h1
    subst h2
    obtain ⟨ha, hb, hc, hd, _⟩ := hb
    have hm : CIDRMask 24 32 = [255, 255, 255, 0] := by decide
    refine ⟨⟨ha, hb, hc, hd⟩, rfl, hm, ?_, ?_⟩
    · simp [hm, IP.Mask, IP.To4, v4InV6Prefix, land_255 ha, land_255 hb, land_255 hc]
    · simp [IP.String, IP.To4, v4InV6Prefix, dotted]
  · cases h

theorem candidate_four (a b c d i : Nat) :
    candidate [a, b, c, d] i = dotted a b c (i % 256) := by
  simp [candidate, String_four]

/-- C1. Lowest-free-first allocation: a successful `CreatePeer` on a /24
prefix `a.b.c.d/24` returns (and stores) the address `a.b.c.i/32` for the
smallest `i` in 2..254 that is free, over every table; and on
`10.0.0.1/24` from the empty table, alice gets `10.0.0.2/32`, bob
`10.0.0.3/32`, and after alice is removed carol gets `10.0.0.2/32`. -/
theorem C1_lowest_free_first :
    (∀ (s s' : Store) (name : Str) (a b c d : Nat) (env : Env) (peer : Peer),
      CreatePeer s name (.v4 a b c d 24) env = (.ok peer, s') →
      ∃ i, 2 ≤ i ∧ i ≤ 254 ∧ peer.AllowedIP = dotted a b c i ++ "/32".toList ∧
        s' = s ++ [peerRow peer] ∧
        isFree s a b c d i ∧ ∀ j, 2 ≤ j → j < i → ¬ isFree s a b c d j) ∧
    (let r1 := CreatePeer [] "alice".toList (.v4 10 0 0 1 24) (sampleEnv "a" 1)
     let r2 := CreatePeer r1.2 "bob".toList (.v4 10 0 0 1 24) (sampleEnv "b" 2)
     let r3 := RemovePeer r2.2 "alice".toList
     let r4 := CreatePeer r3.2 "carol".toList (.v4 10 0 0 1 24) (sampleEnv "c" 3)
     issued r1 = .ok "10.0.0.2/32".toList ∧ issued r2 = .ok "10.0.0.3/32".toList ∧
       r3.1 = .ok () ∧ issued r4 = .ok "10.0.0.2/32".toList) := by
  refine ⟨?_, by decide⟩
  intro s s' name a b c d env peer h
  obtain ⟨_, priv, pub, id, ip, _, _, hal, hpeer, _, hs'⟩ := CreatePeer_ok h
  obtain ⟨ip0, ipNet, hp, _, hscan⟩ := allocateIPTx_ok hal
  obtain ⟨_, hip0, _, hbase, hstr⟩ := ParseCIDR_v4_24 hp
  rw [hbase] at hscan
  obtain ⟨i, hi1, hi2, hi3, hi4, hi5⟩ := scanHosts_some _ _ _ _ _ hscan
  have hmod : ∀ k, k < 255 → k % 256 = k := fun k hk => Nat.mod_eq_of_lt (by omega)
  have hmem : ∀ k, k < 255 → (dotted a b c k ∈ usedIPs s ip0 ↔ ¬ isFree s a b c d k) := by
    intro k _
    simp only [usedIPs, hstr, List.mem_cons, List.mem_map, isFree, not_and_or, not_not,
      not_forall, exists_prop]
  refine ⟨i, hi1, by omega, ?_, hs', ?_, ?_⟩
  · rw [hpeer, hi3, candidate_four, hmod i (by omega)]
  · rw [candidate_four, hmod i (by omega)] at hi4
    by_contra hcon
    exact hi4 ((hmem i (by omega)).2 hcon)
  · intro j hj1 hj2
    have := hi5 j hj1 hj2
    rw [candidate_four, hmod j (by omega)] at this
    exact (hmem j (by omega)).1 this

/-- C1, at the empty table and `10.0.0.1/24`. -/
theorem C1_lowest_free_first_witness :
    CreatePeer [] "alice".toList (.v4 10 0 0 1 24) (sampleEnv "a" 1) =
        (.ok alicePeer, [peerRow alicePeer]) ∧
    ∃ i, 2 ≤ i ∧ i ≤ 254 ∧ alicePeer.AllowedIP = dotted 10 0 0 i ++ "/32".toList ∧
      [peerRow alicePeer] = [] ++ [peerRow alicePeer] ∧
      isFree [] 10 0 0 1 i ∧ ∀ j, 2 ≤ j → j < i → ¬ isFree [] 10 0 0 1 j :=
  ⟨by decide, C1_lowest_free_first.1 [] [peerRow alicePeer] "alice".toList 10 0 0 1
    (sampleEnv "a" 1) alicePeer (by decide)⟩

theorem To4_four {ip : IP} (h : IP.To4 ip ≠ []) : ∃ a b c d, IP.To4 ip = [a, b, c, d] := by
  have hlen : (IP.To4 ip).length = 4 := by
    unfold IP.To4 at h ⊢
    split
    · assumption
    · rename_i h4
      rw [if_neg h4] at h
      split
      · rename_i h16
        simp [h16.1]
      · rename_i h16
        rw [if_neg h16] at h
        exact absurd rfl h
  match hl : IP.To4 ip, hlen with
  | [a, b, c, d], _ => exact ⟨a, b, c, d, rfl⟩

/-- What a successful allocation returns: the base address with its last
octet replaced by a host identifier in 2..254, absent from the used set,
all lower identifiers from 2 being used. -/
theorem allocateIPTx_spec {tx : Store} {cidr : CIDR} {s : Str}
    (h : allocateIPTx tx cidr = .ok s) :
    ∃ ip ipNet b0 b1 b2 b3 i, ParseCIDR cidr = some (ip, ipNet) ∧
      IP.To4 (IP.Mask ip ipNet.Mask) = [b0, b1, b2, b3] ∧
      2 ≤ i ∧ i ≤ 254 ∧ s = dotted b0 b1 b2 i ∧ s ∉ usedIPs tx ip ∧
      ∀ k, 2 ≤ k → k < i → dotted b0 b1 b2 k ∈ usedIPs tx ip := by
  obtain ⟨ip, ipNet, hp, hne, hscan⟩ := allocateIPTx_ok h
  obtain ⟨b0, b1, b2, b3, hb⟩ := To4_four hne
  rw [hb] at hscan
  obtain ⟨i, hi1, hi2, hi3, hi4, hi5⟩ := scanHosts_some _ _ _ _ _ hscan
  have hmod : ∀ k, k < 255 → k % 256 = k := fun k hk => Nat.mod_eq_of_lt (by omega)
  refine ⟨ip, ipNet, b0, b1, b2, b3, i, hp, hb, hi1, by omega, ?_, ?_, ?_⟩
  · rw [hi3, candidate_four, hmod i (by omega)]
  · rw [hi3]; exact hi4
  · intro k hk1 hk2
    have := hi5 k hk1 hk2
    rwa [candidate_four, hmod k (by omega)] at this

/-- The scan of stored addresses alone keeps a new address apart from every
stored one. -/
theorem allocateIPTx_fresh {tx : Store} {cidr : CIDR} {s : Str}
    (h : allocateIPTx tx cidr = .ok s) :
    ∀ r ∈ tx, r.allowed_ip ≠ s ++ "/32".toList := by
  obtain ⟨ip, _, _, _, _, _, _, _, _, _, _, _, hnot, _⟩ := allocateIPTx_spec h
  intro r hr heq
  apply hnot
  simp only [usedIPs, List.mem_cons, List.mem_map]
  exact Or.inr ⟨r, hr, by rw [heq, TrimSuffix_append]⟩

theorem createAll_spec (cidr : CIDR) :
    ∀ (calls : List (Str × Env)) (s sf : Store) (peers : List Peer),
      createAll cidr s calls = some (peers, sf) →
      (peers.map (fun p => p.AllowedIP)).Nodup ∧
      (∀ p ∈ peers, ∀ r ∈ s, r.allowed_ip ≠ p.AllowedIP) ∧
      (∀ p ∈ peers, ∃ tx str, allocateIPTx tx cidr = .ok str ∧
        p.AllowedIP = str ++ "/32".toList) ∧
      sf = s ++ peers.map peerRow ∧ peers.length = calls.length := by
  intro calls
  induction calls with
  | nil =>
    intro s sf peers h
    simp only [createAll, Option.some.injEq, Prod.mk.injEq] at h
    obtain ⟨h1, h2⟩ := h
    subst h1; subst h2
    simp
  | cons call rest ih =>
    intro s sf peers h
    obtain ⟨name, env⟩ := call
    simp only [createAll] at h
    split at h
    · rename_i p s' hc
      split at h
      · rename_i ps sf' hrest
        simp only [Option.some.injEq, Prod.mk.injEq] at h
        obtain ⟨h1, h2⟩ := h
        subst h1; subst h2
        obtain ⟨hnd, hfresh, hform, hsf, hlen⟩ := ih s' sf' ps hrest
        obtain ⟨_, priv, pub, id, ip, _, _, hal, hpeer, _, hs'⟩ := CreatePeer_ok hc
        have hpa : p.AllowedIP = ip ++ "/32".toList := by rw [hpeer]
        have hrow : (peerRow p).allowed_ip = p.AllowedIP := rfl
        refine ⟨?_, ?_, ?_, ?_, ?_⟩
        · simp only [List.map_cons, List.nodup_cons, List.mem_map, not_exists, not_and]
          refine ⟨?_, hnd⟩
          intro q hq heq
          exact hfresh q hq (peerRow p) (by rw [hs']; simp) (by rw [hrow, heq])
        · intro q hq r hr
          rcases List.mem_cons.1 hq with hqp | hqps
          · rw [hqp, hpa]; exact allocateIPTx_fresh hal r hr
          · exact hfresh q hqps r (by rw [hs']; simp [hr])
        · intro q hq
          rcases List.mem_cons.1 hq with hqp | hqps
          · exact ⟨s, ip, hal, by rw [hqp, hpa]⟩
          · exact hform q hqps
        · rw [hsf, hs']; simp
        · simp [hlen]
      · cases h
    · cases h

/-- C2. In a run of successful `CreatePeer` calls on one prefix from the
empty table (of any length, so also of at most 253 calls, and with names
necessarily distinct), the addresses issued are pairwise distinct and each
is the dotted base address with a last octet between 2 and 254, followed
by `/32`. -/
theorem C2_distinct_in_range (cidr : CIDR) (calls : List (Str × Env))
    (peers : List Peer) (sf : Store)
    (h : createAll cidr [] calls = some (peers, sf)) :
    (peers.map (fun p => p.AllowedIP)).Nodup ∧
    ∃ b0 b1 b2, ∀ p ∈ peers, ∃ i, 2 ≤ i ∧ i ≤ 254 ∧
      p.AllowedIP = dotted b0 b1 b2 i ++ "/32".toList := by
  obtain ⟨hnd, _, hform, _, _⟩ := createAll_spec cidr calls [] sf peers h
  refine ⟨hnd, ?_⟩
  cases hp : ParseCIDR cidr with
  | none =>
    refine ⟨0, 0, 0, ?_⟩
    intro p hpm
    obtain ⟨tx, str, hal, _⟩ := hform p hpm
    obtain ⟨_, _, _, _, _, _, _, hp', _⟩ := allocateIPTx_spec hal
    rw [hp] at hp'; cases hp'
  | some pr =>
    obtain ⟨ip, ipNet⟩ := pr
    refine ⟨(IP.To4 (IP.Mask ip ipNet.Mask)).getD 0 0,
      (IP.To4 (IP.Mask ip ipNet.Mask)).getD 1 0, (IP.To4 (IP.Mask ip ipNet.Mask)).getD 2 0, ?_⟩
    intro p hpm
    obtain ⟨tx, str, hal, hpa⟩ := hform p hpm
    obtain ⟨ip', ipNet', b0, b1, b2, b3, i, hp', hb, hi1, hi2, hstr, _, _⟩ :=
      allocateIPTx_spec hal
    rw [hp] at hp'
    simp only [Option.some.injEq, Prod.mk.injEq] at hp'
    obtain ⟨h1, h2⟩ := hp'
    subst h1; subst h2
    refine ⟨i, hi1, hi2, ?_⟩
    rw [hpa, hstr, hb]
    simp

/-- C2, at the run alice, bob on `10.0.0.1/24`. -/
theorem C2_distinct_in_range_witness :
    createAll (.v4 10 0 0 1 24) []
        [("alice".toList, sampleEnv "a" 1), ("bob".toList, sampleEnv "b" 2)] =
      some ([alicePeer, bobPeer], [peerRow alicePeer, peerRow bobPeer]) ∧
    ([alicePeer, bobPeer].map (fun p => p.AllowedIP)).Nodup ∧
    ∃ b0 b1 b2, ∀ p ∈ [alicePeer, bobPeer], ∃ i, 2 ≤ i ∧ i ≤ 254 ∧
      p.AllowedIP = dotted b0 b1 b2 i ++ "/32".toList :=
  ⟨by decide,
    C2_distinct_in_range (.v4 10 0 0 1 24)
      [("alice".toList, sampleEnv "a" 1), ("bob".toList, sampleEnv "b" 2)]
      [alicePeer, bobPeer] [peerRow alicePeer, peerRow bobPeer] (by decide)⟩

/-- C3. `CreatePeer` under a name some stored peer carries fails with
`errPeerExists`, whatever the prefix and the random source, and the table
afterwards is the table before: every row as it was, none added. -/
theorem C3_existing_name_conflict (s : Store) (name : Str) (cidr : CIDR) (env : Env)
    (h : ∃ r ∈ s, r.name = name) :
    CreatePeer s name cidr env = (.error .errPeerExists, s) := by
  obtain ⟨r, hr, hn⟩ := h
  have hmem : r ∈ s.filter (fun r => r.name == name) := by
    simp [List.mem_filter, hr, hn]
  have hpos : (s.filter (fun r => r.name == name)).length > 0 :=
    List.length_pos_of_mem hmem
  simp only [CreatePeer, if_pos hpos]

/-- C3, at the table holding alice, for a second alice. -/
theorem C3_existing_name_conflict_witness :
    (∃ r ∈ [peerRow alicePeer], r.name = "alice".toList) ∧
    CreatePeer [peerRow alicePeer] "alice".toList (.v4 10 0 0 1 24) (sampleEnv "z" 9) =
      (.error .errPeerExists, [peerRow alicePeer]) :=
  ⟨⟨peerRow alicePeer, by simp, by decide⟩,
    C3_existing_name_conflict [peerRow alicePeer] "alice".toList (.v4 10 0 0 1 24)
      (sampleEnv "z" 9) ⟨peerRow alicePeer, by simp, by decide⟩⟩

theorem filter_name_absent (s : Store) (name : Str) (h : ∀ r ∈ s, r.name ≠ name) :
    s.filter (fun r => !(r.name == name)) = s := by
  rw [List.filter_eq_self]
  intro r hr
  simpa using h r hr

theorem filter_name_shorter (s : Store) (name : Str) (h : ∃ r ∈ s, r.name = name) :
    (s.filter (fun r => !(r.name == name))).length < s.length := by
  obtain ⟨r, hr, hn⟩ := h
  apply lt_of_le_of_ne (List.length_filter_le _ _)
  intro heq
  have hall := List.filter_eq_self.1 ((List.filter_sublist s).eq_of_length heq) r hr
  simp [hn] at hall

/-- C5. `RemovePeer` of a name no stored peer carries fails with
`errPeerNotFound` and leaves the table as it was; of a name a stored peer
carries it succeeds, leaving the rows of other names, and a second
`RemovePeer` of the same name then fails with `errPeerNotFound`. -/
theorem C5_remove_peer (s : Store) (name : Str) :
    ((∀ r ∈ s, r.name ≠ name) → RemovePeer s name = (.error .errPeerNotFound, s)) ∧
    ((∃ r ∈ s, r.name = name) →
      RemovePeer s name = (.ok (), s.filter (fun r => !(r.name == name))) ∧
      RemovePeer (RemovePeer s name).2 name =
        (.error .errPeerNotFound, (RemovePeer s name).2)) := by
  constructor
  · intro h
    simp [RemovePeer, filter_name_absent s name h]
  · intro h
    have hlt := filter_name_shorter s name h
    have h1 : RemovePeer s name = (.ok (), s.filter (fun r => !(r.name == name))) := by
      simp only [RemovePeer]
      rw [if_neg (by omega)]
    refine ⟨h1, ?_⟩
    rw [h1]
    simp [RemovePeer]

/-- C5, at the table alice, bob: bob is kept, alice goes, and is then not
found; carol is not found to begin with. -/
theorem C5_remove_peer_witness :
    (RemovePeer [peerRow alicePeer, peerRow bobPeer] "carol".toList =
      (.error .errPeerNotFound, [peerRow alicePeer, peerRow bobPeer])) ∧
    (RemovePeer [peerRow alicePeer, peerRow bobPeer] "alice".toList =
        (.ok (), [peerRow alicePeer, peerRow bobPeer].filter
          (fun r => !(r.name == "alice".toList))) ∧
      RemovePeer (RemovePeer [peerRow alicePeer, peerRow bobPeer] "alice".toList).2
          "alice".toList =
        (.error .errPeerNotFound,
          (RemovePeer [peerRow alicePeer, peerRow bobPeer] "alice".toList).2)) :=
  ⟨(C5_remove_peer [peerRow alicePeer, peerRow bobPeer] "carol".toList).1 (by decide),
    (C5_remove_peer [peerRow alicePeer, peerRow bobPeer] "alice".toList).2
      ⟨peerRow alicePeer, by simp, by decide⟩⟩

/-! ## Lemmas: decimal and dotted text -/

set_option maxRecDepth 100000 in
theorem decodeNat_fmtNat_byte : ∀ x, x < 256 → decodeNat (fmtNat x) = x := by
  decide

set_option maxRecDepth 100000 in
theorem fmtNat_byte_no_dot : ∀ x, x < 256 → '.' ∉ fmtNat x := by
  decide

theorem fmtNat_byte_inj {x y : Nat} (hx : x < 256) (hy : y < 256)
    (h : fmtNat x = fmtNat y) : x = y := by
  have := congrArg decodeNat h
  rwa [decodeNat_fmtNat_byte x hx, decodeNat_fmtNat_byte y hy] at this

theorem append_dot_split : ∀ (xs ys r r' : Str), '.' ∉ xs → '.' ∉ ys →
    xs ++ '.' :: r = ys ++ '.' :: r' → xs = ys ∧ r = r' := by
  intro xs
  induction xs with
  | nil =>
    intro ys r r' _ hy h
    cases ys with
    | nil => simpa using h
    | cons y ys =>
      simp only [List.nil_append, List.cons_append, List.cons.injEq] at h
      exact absurd (h.1 ▸ List.mem_cons_self _ _) hy
  | cons x xs ih =>
    intro ys r r' hx hy h
    cases ys with
    | nil =>
      simp only [List.nil_append, List.cons_append, List.cons.injEq] at h
      exact absurd (h.1 ▸ List.mem_cons_self _ _) hx
    | cons y ys =>
      simp only [List.cons_append, List.cons.injEq] at h
      obtain ⟨hxy, hrest⟩ := h
      obtain ⟨h1, h2⟩ := ih ys r r' (fun hm => hx (List.mem_cons_of_mem _ hm))
        (fun hm => hy (List.mem_cons_of_mem _ hm)) hrest
      exact ⟨by rw [hxy, h1], h2⟩

/-- Dotted text determines the four octets. -/
theorem dotted_inj {a b c d a' b' c' d' : Nat}
    (ha : a < 256) (hb : b < 256) (hc : c < 256) (hd : d < 256)
    (ha' : a' < 256) (hb' : b' < 256) (hc' : c' < 256) (hd' : d' < 256)
    (h : dotted a b c d = dotted a' b' c' d') : a = a' ∧ b = b' ∧ c = c' ∧ d = d' := by
  unfold dotted at h
  obtain ⟨h1, h⟩ := append_dot_split _ _ _ _ (fmtNat_byte_no_dot a ha)
    (fmtNat_byte_no_dot a' ha') h
  obtain ⟨h2, h⟩ := append_dot_split _ _ _ _ (fmtNat_byte_no_dot b hb)
    (fmtNat_byte_no_dot b' hb') h
  obtain ⟨h3, h4⟩ := append_dot_split _ _ _ _ (fmtNat_byte_no_dot c hc)
    (fmtNat_byte_no_dot c' hc') h
  exact ⟨fmtNat_byte_inj ha ha' h1, fmtNat_byte_inj hb hb' h2, fmtNat_byte_inj hc hc' h3,
    fmtNat_byte_inj hd hd' h4⟩

/-- Dotted text of one network determines the last octet. -/
theorem dotted_last_inj (a b c : Nat) {i j : Nat} (hi : i < 256) (hj : j < 256)
    (h : dotted a b c i = dotted a b c j) : i = j := by
  unfold dotted at h
  have h := List.append_cancel_left h
  simp only [List.cons.injEq, true_and] at h
  have h := List.append_cancel_left h
  simp only [List.cons.injEq, true_and] at h
  have h := List.append_cancel_left h
  simp only [List.cons.injEq, true_and] at h
  exact fmtNat_byte_inj hi hj h

theorem scanHosts_first (base4 : IP) (used : List Str) :
    ∀ (n i j : Nat), i ≤ j → j < i + n → candidate base4 j ∉ used →
      (∀ k, i ≤ k → k < j → candidate base4 k ∈ used) →
      scanHosts base4 used i n = some (candidate base4 j) := by
  intro n
  induction n with
  | zero => intro i j h1 h2; omega
  | succ n ih =>
    intro i j h1 h2 hj hk
    simp only [scanHosts]
    by_cases hij : i = j
    · subst hij
      rw [if_neg (by simpa [candidate] using hj)]
      simp [candidate]
    · have hi : candidate base4 i ∈ used := hk i (le_refl _) (by omega)
      rw [if_pos (by simpa [candidate] using hi)]
      exact ih (i + 1) j (by omega) (by omega) hj (fun k hk1 hk2 => hk k (by omega) hk2)

/-! ## Lemmas: filling a /24 -/

theorem ParseCIDR_v4_some {a b c d ones : Nat} (ha : a < 256) (hb : b < 256)
    (hc : c < 256) (hd : d < 256) (ho : ones ≤ 32) :
    ParseCIDR (.v4 a b c d ones) =
      some (v4InV6Prefix ++ [a, b, c, d],
        { IP := IP.Mask (v4InV6Prefix ++ [a, b, c, d]) (CIDRMask ones 32),
          Mask := CIDRMask ones 32 }) := by
  simp [ParseCIDR, ha, hb, hc, hd, ho]

theorem usedIPs_filled {a b c m : Nat} {s : Store} (hf : filled a b c m s) (ip : IP) :
    usedIPs s ip = IP.String ip :: (List.range m).map (fun j => dotted a b c (j + 2)) := by
  unfold usedIPs
  congr 1
  have : s.map (fun r => TrimSuffix r.allowed_ip "/32".toList) =
      (s.map (fun r => r.allowed_ip)).map (fun x => TrimSuffix x "/32".toList) := by
    simp [List.map_map]
  rw [this, hf, List.map_map]
  apply List.map_congr_left
  intro j _
  simp [nthAddr, TrimSuffix_append]

theorem allocateIPTx_filled {a b c m : Nat} {s : Store} (ha : a < 256) (hb : b < 256)
    (hc : c < 256) (hm : m ≤ 253) (hf : filled a b c m s) :
    allocateIPTx s (.v4 a b c 1 24) =
      if m < 253 then .ok (dotted a b c (m + 2)) else .error .noAvailableIPs := by
  have hp := ParseCIDR_v4_some ha hb hc (by omega : 1 < 256) (by omega : 24 ≤ 32)
  obtain ⟨_, _, _, hbase, hstr⟩ := ParseCIDR_v4_24 hp
  have hused := usedIPs_filled hf (v4InV6Prefix ++ [a, b, c, 1])
  rw [hstr] at hused
  have hmem : ∀ k, 2 ≤ k → k ≤ 254 →
      (candidate [a, b, c, 0] k ∈ usedIPs s (v4InV6Prefix ++ [a, b, c, 1]) ↔ k < m + 2) := by
    intro k hk1 hk2
    rw [candidate_four, Nat.mod_eq_of_lt (by omega), hused]
    simp only [List.mem_cons, List.mem_map, List.mem_range]
    constructor
    · rintro (h1 | ⟨j, hj, h2⟩)
      · have := dotted_last_inj a b c (by omega) (by omega) h1
        omega
      · have := dotted_last_inj a b c (by omega) (by omega) h2
        omega
    · intro hlt
      exact Or.inr ⟨k - 2, by omega, by rw [show k - 2 + 2 = k by omega]⟩
  have hne : ¬ ([a, b, c, 0] : IP) = [] := by simp
  simp only [allocateIPTx, hp, hbase, if_neg hne]
  by_cases hlt : m < 253
  · rw [if_pos hlt, scanHosts_first _ _ 253 2 (m + 2) (by omega) (by omega)
      (fun hin => by have := (hmem (m + 2) (by omega) (by omega)).1 hin; omega)
      (fun k hk1 hk2 => (hmem k hk1 (by omega)).2 hk2),
      candidate_four, Nat.mod_eq_of_lt (by omega)]
  · rw [if_neg hlt, scanHosts_none _ _ 253 2
      (fun k hk1 hk2 => (hmem k hk1 (by omega)).2 (by omega))]

theorem createAll_filled (a b c : Nat) :
    ∀ (calls : List (Str × Env)) (s sf : Store) (peers : List Peer) (m : Nat),
      m ≤ 253 → filled a b c m s →
      createAll (.v4 a b c 1 24) s calls = some (peers, sf) →
      filled a b c (m + calls.length) sf ∧ m + calls.length ≤ 253 := by
  intro calls
  induction calls with
  | nil =>
    intro s sf peers m hm hf h
    simp only [createAll, Option.some.injEq, Prod.mk.injEq] at h
    obtain ⟨_, h2⟩ := h
    subst h2
    exact ⟨by simpa using hf, by simpa using hm⟩
  | cons call rest ih =>
    intro s sf peers m hm hf h
    obtain ⟨name, env⟩ := call
    simp only [createAll] at h
    split at h
    · rename_i p s' hc
      split at h
      · rename_i ps sf' hrest
        simp only [Option.some.injEq, Prod.mk.injEq] at h
        obtain ⟨_, h2⟩ := h
        subst h2
        obtain ⟨_, priv, pub, id, ip, _, _, hal, hpeer, _, hs'⟩ := CreatePeer_ok hc
        obtain ⟨ip0, ipNet, hp, _⟩ := allocateIPTx_ok hal
        obtain ⟨⟨ha, hb, hc', _⟩, _⟩ := ParseCIDR_v4_24 hp
        rw [allocateIPTx_filled ha hb hc' hm hf] at hal
        split at hal
        · rename_i hlt
          have hip : ip = dotted a b c (m + 2) := by
            simpa using hal.symm
          have hf' : filled a b c (m + 1) s' := by
            unfold filled at hf ⊢
            rw [hs', List.map_append, hf, List.range_succ, List.map_append]
            simp [peerRow, hpeer, hip, nthAddr]
          obtain ⟨h1, h2⟩ := ih s' sf' ps (m + 1) (by omega) hf' hrest
          refine ⟨?_, ?_⟩
          · rw [List.length_cons, show m + (rest.length + 1) = m + 1 + rest.length by omega]
            exact h1
          · rw [List.length_cons]; omega
        · cases hal
      · cases h
    · cases h

/-- `CreatePeer` does succeed, appending the new row, when the name, the
identifier and the public key are new to the table and an address is left. -/
theorem CreatePeer_success {s : Store} {name priv pub id ip : Str} {cidr : CIDR} {now : Nat}
    (hname : ∀ r ∈ s, r.name ≠ name) (hid : ∀ r ∈ s, r.id ≠ id)
    (hpub : ∀ r ∈ s, r.public_key ≠ pub) (hal : allocateIPTx s cidr = .ok ip) :
    CreatePeer s name cidr { keyPair := some (priv, pub), id := some id, now := now } =
      (.ok (Peer.mk id name pub priv (ip ++ "/32".toList) true now),
       s ++ [peerRow (Peer.mk id name pub priv (ip ++ "/32".toList) true now)]) := by
  have hfil : s.filter (fun r => r.name == name) = [] := by
    rw [List.filter_eq_nil_iff]
    intro r hr
    simpa using hname r hr
  have hins : insertRow s (peerRow (Peer.mk id name pub priv (ip ++ "/32".toList) true now)) =
      some (s ++ [peerRow (Peer.mk id name pub priv (ip ++ "/32".toList) true now)]) := by
    unfold insertRow
    rw [if_neg]
    intro h
    obtain ⟨r, hr, hx⟩ := List.any_eq_true.1 h
    simp only [peerRow, Bool.or_eq_true, beq_iff_eq] at hx
    rcases hx with ((h1 | h2) | h3) | h4
    · exact hid r hr h1
    · exact hname r hr h2
    · exact hpub r hr h3
    · exact allocateIPTx_fresh hal r hr h4
  simp only [CreatePeer, hfil, List.length_nil, gt_iff_lt, lt_self_iff_false, if_false, hal, hins]

theorem createAll_sample {a b c : Nat} (ha : a < 256) (hb : b < 256) (hc : c < 256) :
    ∀ (n m : Nat), m + n ≤ 253 →
      createAll (.v4 a b c 1 24) ((List.range m).map (fun k => peerRow (samplePeer a b c k)))
          ((List.range' m n).map sampleCall) =
        some ((List.range' m n).map (samplePeer a b c),
          (List.range (m + n)).map (fun k => peerRow (samplePeer a b c k))) := by
  intro n
  induction n with
  | zero => intro m _; simp [createAll]
  | succ n ih =>
    intro m hm
    have hf : filled a b c m ((List.range m).map (fun k => peerRow (samplePeer a b c k))) := by
      simp [filled, List.map_map, peerRow, samplePeer]
    have hal := allocateIPTx_filled ha hb hc (by omega : m ≤ 253) hf
    rw [if_pos (by omega)] at hal
    have hfresh : ∀ (t : Char), ∀ j, j < m → t :: fmtNat j ≠ t :: fmtNat m := by
      intro t j hj h
      have := fmtNat_byte_inj (by omega) (by omega) (List.cons.inj h).2
      omega
    have hcreate := @CreatePeer_success
      ((List.range m).map (fun k => peerRow (samplePeer a b c k)))
      ('n' :: fmtNat m) ('s' :: fmtNat m) ('p' :: fmtNat m) ('i' :: fmtNat m)
      (dotted a b c (m + 2)) (.v4 a b c 1 24) m
      (by simp only [List.mem_map, List.mem_range]
          rintro r ⟨j, hj, rfl⟩
          exact hfresh 'n' j hj)
      (by simp only [List.mem_map, List.mem_range]
          rintro r ⟨j, hj, rfl⟩
          exact hfresh 'i' j hj)
      (by simp only [List.mem_map, List.mem_range]
          rintro r ⟨j, hj, rfl⟩
          exact hfresh 'p' j hj)
      hal
    have hstep := ih (m + 1) (by omega)
    rw [List.range_succ, List.map_append] at hstep
    simp only [List.range'_succ, List.map_cons, createAll, sampleCall]
    rw [hcreate]
    simp only [List.map_cons, List.map_nil, samplePeer, nthAddr] at hstep ⊢
    rw [hstep]
    simp [show m + 1 + n = m + (n + 1) by omega]

/-- C4. Capacity ceiling of a /24 whose own address is host 1: after a run
of 253 successful `CreatePeer` calls from the empty table, the table holds
253 rows and a further `CreatePeer` under a new name returns no peer and
leaves the table as it is; its error is `noAvailableIPs` whenever the
random source delivered the key pair, which `CreatePeer` draws before it
allocates. -/
theorem C4_capacity_ceiling (a b c : Nat) (calls : List (Str × Env)) (peers : List Peer)
    (sf : Store) (hlen : calls.length = 253)
    (hrun : createAll (.v4 a b c 1 24) [] calls = some (peers, sf))
    (name : Str) (env : Env) (hname : ∀ r ∈ sf, r.name ≠ name) :
    sf.length = 253 ∧
    (CreatePeer sf name (.v4 a b c 1 24) env).2 = sf ∧
    (∀ p, (CreatePeer sf name (.v4 a b c 1 24) env).1 ≠ .ok p) ∧
    (env.keyPair ≠ none →
      CreatePeer sf name (.v4 a b c 1 24) env = (.error .noAvailableIPs, sf)) := by
  obtain ⟨hf, _⟩ := createAll_filled a b c calls [] sf peers 0 (by omega) (by simp [filled]) hrun
  rw [hlen] at hf
  have hsl : sf.length = 253 := by
    have := congrArg List.length hf
    simpa using this
  have hpar : ∃ ip ipNet, ParseCIDR (.v4 a b c 1 24) = some (ip, ipNet) := by
    cases calls with
    | nil => simp at hlen
    | cons call rest =>
      obtain ⟨nm, ev⟩ := call
      simp only [createAll] at hrun
      split at hrun
      · rename_i p s' hc
        obtain ⟨_, _, _, _, ip, _, _, hal, _⟩ := CreatePeer_ok hc
        obtain ⟨ip0, ipNet, hp, _⟩ := allocateIPTx_ok hal
        exact ⟨ip0, ipNet, hp⟩
      · cases hrun
  obtain ⟨ip0, ipNet, hp⟩ := hpar
  obtain ⟨⟨ha, hb, hc, _⟩, _⟩ := ParseCIDR_v4_24 hp
  have hal := allocateIPTx_filled ha hb hc (by omega : 0 + 253 ≤ 253) hf
  rw [if_neg (by omega)] at hal
  have hfil : sf.filter (fun r => r.name == name) = [] := by
    rw [List.filter_eq_nil_iff]
    intro r hr
    simpa using hname r hr
  refine ⟨hsl, ?_, ?_, ?_⟩
  · cases hk : env.keyPair <;> simp [CreatePeer, hfil, hal, hk]
  · intro p
    cases hk : env.keyPair <;> simp [CreatePeer, hfil, hal, hk]
  · intro hk
    cases hk' : env.keyPair with
    | none => exact absurd hk' hk
    | some kp => simp [CreatePeer, hfil, hal, hk']

/-- C4, at the sample run of 253 calls on `10.0.0.1/24`, with a 254th call. -/
theorem C4_capacity_ceiling_witness :
    createAll (.v4 10 0 0 1 24) [] ((List.range' 0 253).map sampleCall) =
      some ((List.range' 0 253).map (samplePeer 10 0 0),
        (List.range 253).map (fun k => peerRow (samplePeer 10 0 0 k))) ∧
    ((List.range 253).map (fun k => peerRow (samplePeer 10 0 0 k))).length = 253 ∧
    CreatePeer ((List.range 253).map (fun k => peerRow (samplePeer 10 0 0 k)))
        "late".toList (.v4 10 0 0 1 24) (sampleEnv "z" 999) =
      (.error .noAvailableIPs, (List.range 253).map (fun k => peerRow (samplePeer 10 0 0 k))) :=
  have hrun := createAll_sample (by omega : 10 < 256) (by omega : 0 < 256)
    (by omega : 0 < 256) 253 0 (by omega)
  have h := C4_capacity_ceiling 10 0 0 ((List.range' 0 253).map sampleCall)
    ((List.range' 0 253).map (samplePeer 10 0 0))
    ((List.range 253).map (fun k => peerRow (samplePeer 10 0 0 k)))
    (by simp) (by simpa using hrun) "late".toList (sampleEnv "z" 999)
    (by simp only [List.mem_map, List.mem_range]
        rintro r ⟨j, _, rfl⟩
        simp [peerRow, samplePeer])
  ⟨by simpa using hrun, h.1, h.2.2.2 (by simp [sampleEnv])⟩

/-! ## The issued address and the network of the prefix -/

theorem CIDRMask_le_24 {ones : Nat} (h : ones ≤ 24) :
    ∃ m0 m1 m2, CIDRMask ones 32 = [m0, m1, m2, 0] := by
  have key : ∀ n, n < 25 →
      (CIDRMask n 32).length = 4 ∧ (CIDRMask n 32).drop 3 = [0] := by decide
  obtain ⟨hl, hd⟩ := key ones (by omega)
  match hm : CIDRMask ones 32, hl, hd with
  | [m0, m1, m2, m3], _, hd =>
    simp only [List.drop_succ_cons, List.drop_zero, List.cons.injEq, and_true] at hd
    exact ⟨m0, m1, m2, by rw [hd]⟩

theorem land_land (x m : Nat) : x &&& m &&& m = x &&& m := by
  rw [Nat.and_assoc, Nat.and_self]

theorem land_lt_256 {x : Nat} (m : Nat) (h : x < 256) : x &&& m < 256 :=
  lt_of_le_of_lt Nat.and_le_left h

/-- C8 as amended. For an IPv4 prefix `a.b.c.d/ones` of mask length at
most 24 and every table, the address a successful `CreatePeer` issues lies
within the network of the prefix: its four octets masked with the mask of
the prefix are the base address of the network. -/
theorem C8_within_network_upto_24 (s s' : Store) (name : Str) (a b c d ones : Nat)
    (env : Env) (peer : Peer) (ip : IP) (ipNet : IPNet) (hones : ones ≤ 24)
    (hc : CreatePeer s name (.v4 a b c d ones) env = (.ok peer, s'))
    (hp : ParseCIDR (.v4 a b c d ones) = some (ip, ipNet)) :
    inNetwork peer.AllowedIP ipNet := by
  obtain ⟨_, priv, pub, id, str, _, _, hal, hpeer, _, _⟩ := CreatePeer_ok hc
  obtain ⟨ip', ipNet', b0, b1, b2, b3, i, hp', hb, hi1, hi2, hstr, _, _⟩ :=
    allocateIPTx_spec hal
  rw [hp] at hp'
  simp only [Option.some.injEq, Prod.mk.injEq] at hp'
  obtain ⟨h1, h2⟩ := hp'
  subst h1; subst h2
  obtain ⟨m0, m1, m2, hm⟩ := CIDRMask_le_24 hones
  simp only [ParseCIDR] at hp
  split at hp
  · rename_i hbd
    obtain ⟨ha, hb', hc', hd, _⟩ := hbd
    simp only [Option.some.injEq, Prod.mk.injEq] at hp
    obtain ⟨h1, h2⟩ := hp
    subst h1; subst h2
    simp only [hm] at hb ⊢
    simp only [IP.Mask, IP.To4, v4InV6Prefix] at hb
    simp at hb
    obtain ⟨h0, h1, h2, h3⟩ := hb
    refine ⟨b0, b1, b2, i, ?_, ?_, ?_, by omega, ?_, ?_⟩
    · rw [← h0]; exact land_lt_256 m0 ha
    · rw [← h1]; exact land_lt_256 m1 hb'
    · rw [← h2]; exact land_lt_256 m2 hc'
    · rw [hpeer, hstr]
    · simp [IP.Mask, v4InV6Prefix, ← h0, ← h1, ← h2, land_land]
  · cases hp

/-- C8 as amended, at the empty table and `10.0.0.1/24`. -/
theorem C8_within_network_upto_24_witness :
    24 ≤ 24 ∧
    CreatePeer [] "alice".toList (.v4 10 0 0 1 24) (sampleEnv "a" 1) =
      (.ok alicePeer, [peerRow alicePeer]) ∧
    ParseCIDR (.v4 10 0 0 1 24) =
      some (v4InV6Prefix ++ [10, 0, 0, 1],
        { IP := [10, 0, 0, 0], Mask := [255, 255, 255, 0] }) ∧
    inNetwork alicePeer.AllowedIP { IP := [10, 0, 0, 0], Mask := [255, 255, 255, 0] } :=
  ⟨le_refl 24, by decide, by decide,
    C8_within_network_upto_24 [] [peerRow alicePeer] "alice".toList 10 0 0 1 24
      (sampleEnv "a" 1) alicePeer (v4InV6Prefix ++ [10, 0, 0, 1])
      { IP := [10, 0, 0, 0], Mask := [255, 255, 255, 0] } (le_refl 24) (by decide) (by decide)⟩

/-- C8 as stated fails at the prefix `10.0.0.129/25` and the empty table:
the network is `10.0.0.128/25`, `CreatePeer` issues `10.0.0.2/32`, and
`10.0.0.2` masked with `255.255.255.128` is `10.0.0.0`. -/
theorem C8_counterexample_mask_25 :
    CreatePeer [] "alice".toList (.v4 10 0 0 129 25) (sampleEnv "a" 1) =
      (.ok alicePeer, [peerRow alicePeer]) ∧
    ParseCIDR (.v4 10 0 0 129 25) =
      some (v4InV6Prefix ++ [10, 0, 0, 129],
        { IP := [10, 0, 0, 128], Mask := [255, 255, 255, 128] }) ∧
    alicePeer.AllowedIP = "10.0.0.2/32".toList ∧
    ¬ inNetwork alicePeer.AllowedIP { IP := [10, 0, 0, 128], Mask := [255, 255, 255, 128] } := by
  refine ⟨by decide, by decide, by decide, ?_⟩
  rintro ⟨w, x, y, z, hw, hx, hy, hz, haddr, hmask⟩
  have h2 : alicePeer.AllowedIP = dotted 10 0 0 2 ++ "/32".toList := by decide
  have hd : dotted w x y z = dotted 10 0 0 2 :=
    List.append_cancel_right (haddr.symm.trans h2)
  obtain ⟨rfl, rfl, rfl, rfl⟩ := dotted_inj hw hx hy hz (by omega) (by omega) (by omega)
    (by omega) hd
  revert hmask
  decide

/-! ## Lemmas: lines of a text -/

theorem Split_ne_nil (sep : Char) (s : Str) : Split sep s ≠ [] := by
  cases s with
  | nil => simp [Split]
  | cons c cs =>
    simp only [Split]
    split
    · simp
    · split <;> simp

theorem Split_no_sep (sep : Char) : ∀ (s : Str), sep ∉ s → Split sep s = [s] := by
  intro s
  induction s with
  | nil => intro _; rfl
  | cons c cs ih =>
    intro h
    have hc : c ≠ sep := fun e => h (e ▸ List.mem_cons_self _ _)
    have hcs : sep ∉ cs := fun hm => h (List.mem_cons_of_mem _ hm)
    simp [Split, hc, ih hcs]

theorem Split_append_sep (sep : Char) : ∀ (xs ys : Str),
    Split sep (xs ++ sep :: ys) = Split sep xs ++ Split sep ys := by
  intro xs
  induction xs with
  | nil => intro ys; simp [Split]
  | cons c cs ih =>
    intro ys
    by_cases hc : c = sep
    · simp [Split, hc, ih ys]
    · simp only [List.cons_append, Split, if_neg hc]
      have ih' : Split sep (cs.append (sep :: ys)) = Split sep cs ++ Split sep ys := ih ys
      rw [ih']
      cases hs : Split sep cs with
      | nil => exact absurd hs (Split_ne_nil sep cs)
      | cons l ls => simp

theorem Split_line (sep : Char) (l rest : Str) (h : sep ∉ l) :
    Split sep (l ++ sep :: rest) = l :: Split sep rest := by
  rw [Split_append_sep, Split_no_sep sep l h]
  rfl

theorem Split_unlines_append (ls : List Str) (rest : Str) (h : ∀ l ∈ ls, '\n' ∉ l) :
    Split '\n' (unlines ls ++ rest) = ls ++ Split '\n' rest := by
  induction ls with
  | nil => simp [unlines]
  | cons l ls ih =>
    have hl : '\n' ∉ l := h l (List.mem_cons_self _ _)
    have hls : ∀ x ∈ ls, '\n' ∉ x := fun x hx => h x (List.mem_cons_of_mem _ hx)
    have : unlines (l :: ls) ++ rest = l ++ '\n' :: (unlines ls ++ rest) := by
      simp [unlines]
    rw [this, Split_line _ _ _ hl, ih hls]
    rfl

theorem Split_unlines (ls : List Str) (h : ∀ l ∈ ls, '\n' ∉ l) :
    Split '\n' (unlines ls) = ls ++ [[]] := by
  have := Split_unlines_append ls [] h
  simpa [Split] using this

theorem Join_unlines : ∀ (ls : List Str), Join (ls ++ [[]]) ['\n'] = unlines ls := by
  intro ls
  induction ls with
  | nil => simp [Join, unlines]
  | cons l ls ih =>
    cases ls with
    | nil => simp [Join, unlines]
    | cons l2 ls2 =>
      have : Join ((l :: l2 :: ls2) ++ [[]]) ['\n'] =
          l ++ ['\n'] ++ Join ((l2 :: ls2) ++ [[]]) ['\n'] := by
        simp [Join]
      rw [this, ih]
      simp [unlines]

theorem foldl_extractStep : ∀ (ls : List Str) (b : Bool) (acc : List Str),
    (ls.foldl extractStep (b, acc)).2 = acc ++ keptLines b ls := by
  intro ls
  induction ls with
  | nil => intro b acc; simp [keptLines]
  | cons l ls ih =>
    intro b acc
    simp only [List.foldl_cons, extractStep, keptLines]
    rw [ih]
    split_ifs <;> simp

theorem extractPeerConfig_eq (config : Str) :
    extractPeerConfig config = Join (keptLines false (Split '\n' config)) ['\n'] := by
  simp [extractPeerConfig, foldl_extractStep]

/-! ## The server configuration as blocks -/

theorem peerBlock_text (peer : Peer) :
    peerBlock peer = "\n[Peer]\nPublicKey = ".toList ++ peer.PublicKey ++
      "\nAllowedIPs = ".toList ++ peer.AllowedIP ++ "\n".toList := by
  simp [peerBlock, peerLines, unlines]

theorem foldl_peer_loop : ∀ (peers : List Peer) (sb : Str),
    peers.foldl (fun sb peer =>
      let sb := sb ++ "\n[Peer]\n".toList
      let sb := sb ++ ("PublicKey = ".toList ++ peer.PublicKey ++ "\n".toList)
      sb ++ ("AllowedIPs = ".toList ++ peer.AllowedIP ++ "\n".toList)) sb
      = sb ++ peerBlocks peers := by
  intro peers
  induction peers with
  | nil => intro sb; simp [peerBlocks]
  | cons p ps ih =>
    intro sb
    simp only [List.foldl_cons]
    rw [ih]
    simp [peerBlocks, peerBlock, peerLines, unlines]

theorem generateServerConfig_blocks (goos : Str) (cfg : Config) (peers : List Peer) :
    generateServerConfig goos cfg peers = interfaceBlock goos cfg ++ peerBlocks peers := by
  unfold generateServerConfig
  simp only [foldl_peer_loop]
  congr 1
  unfold interfaceBlock interfaceLines natRuleLines unlines
  split <;> simp

/-- C9. `generateServerConfig` emits the `[Interface]` block (header,
`PrivateKey`, `Address`, `ListenPort`, and the NAT rules when they apply)
followed by the `[Peer]` blocks of the input list, one per element and in
input order, each being the header with the `PublicKey` and the
`AllowedIPs` of that peer; and rendering `p ++ q` is rendering `p` followed
by the peer blocks of `q`. -/
theorem C9_server_config_blocks (goos : Str) (cfg : Config) (peers q : List Peer) :
    generateServerConfig goos cfg peers =
      interfaceBlock goos cfg ++ (peers.map peerBlock).flatten ∧
    (∃ rest, interfaceBlock goos cfg =
      "[Interface]\nPrivateKey = ".toList ++ cfg.PrivateKey ++ "\nAddress = ".toList ++
        cfg.Address ++ "\nListenPort = ".toList ++ fmtInt cfg.ListenPort ++ "\n".toList ++
        rest) ∧
    (peers.map peerBlock).length = peers.length ∧
    (∀ i (h : i < peers.length), (peers.map peerBlock)[i]? =
      some ("\n[Peer]\nPublicKey = ".toList ++ (peers.get ⟨i, h⟩).PublicKey ++
        "\nAllowedIPs = ".toList ++ (peers.get ⟨i, h⟩).AllowedIP ++ "\n".toList)) ∧
    generateServerConfig goos cfg (peers ++ q) =
      generateServerConfig goos cfg peers ++ (q.map peerBlock).flatten := by
  refine ⟨generateServerConfig_blocks goos cfg peers, ?_, by simp, ?_, ?_⟩
  · refine ⟨unlines (natRuleLines goos cfg), ?_⟩
    simp [interfaceBlock, interfaceLines, unlines]
  · intro i h
    simp [List.getElem?_map, List.getElem?_eq_getElem h, peerBlock_text]
  · rw [generateServerConfig_blocks, generateServerConfig_blocks]
    simp [peerBlocks]

/-! ## Extraction from a rendered server configuration -/

theorem digitChar_ne_newline : ∀ d, d < 10 → Nat.digitChar d ≠ '\n' := by decide

theorem toDigitsCore_no_newline : ∀ (fuel n : Nat) (ds : List Char),
    '\n' ∉ ds → '\n' ∉ Nat.toDigitsCore 10 fuel n ds := by
  intro fuel
  induction fuel with
  | zero => intro n ds h; simpa [Nat.toDigitsCore] using h
  | succ fuel ih =>
    intro n ds h
    have hd : '\n' ∉ Nat.digitChar (n % 10) :: ds := by
      intro hm
      rcases List.mem_cons.1 hm with h1 | h2
      · exact digitChar_ne_newline (n % 10) (Nat.mod_lt _ (by omega)) h1.symm
      · exact h h2
    simp only [Nat.toDigitsCore]
    split
    · exact hd
    · exact ih _ _ hd

theorem fmtInt_no_newline (n : Int) : '\n' ∉ fmtInt n := by
  have h : ∀ k, '\n' ∉ fmtNat k := fun k =>
    toDigitsCore_no_newline _ _ _ (List.not_mem_nil _)
  unfold fmtInt
  split
  · intro hm
    rcases List.mem_cons.1 hm with h1 | h2
    · exact absurd h1 (by decide)
    · exact h _ h2
  · exact h _

theorem interfaceLines_no_newline (goos : Str) (cfg : Config)
    (h1 : '\n' ∉ cfg.PrivateKey) (h2 : '\n' ∉ cfg.Address) (h3 : '\n' ∉ cfg.NATInterface) :
    ∀ l ∈ interfaceLines goos cfg, '\n' ∉ l := by
  have h4 := fmtInt_no_newline cfg.ListenPort
  simp only [interfaceLines, natRuleLines]
  split <;> simp [h1, h2, h3, h4]

theorem interfaceLines_not_peer (goos : Str) (cfg : Config) :
    ∀ l ∈ interfaceLines goos cfg, HasPrefix l "[Peer]".toList = false := by
  simp only [interfaceLines, natRuleLines]
  split <;> simp [HasPrefix, List.isPrefixOf]

theorem keptLines_skip : ∀ (ls rest : List Str),
    (∀ l ∈ ls, HasPrefix l "[Peer]".toList = false) →
    keptLines false (ls ++ rest) = keptLines false rest := by
  intro ls
  induction ls with
  | nil => intro rest _; rfl
  | cons l ls ih =>
    intro rest h
    have hl := h l (List.mem_cons_self _ _)
    have := ih rest (fun x hx => h x (List.mem_cons_of_mem _ hx))
    simp only [List.cons_append, keptLines, hl]
    simpa using this

theorem keptLines_keep : ∀ (ls : List Str),
    (∀ l ∈ ls, HasPrefix l "[Interface]".toList = false) → keptLines true ls = ls := by
  intro ls
  induction ls with
  | nil => intro _; rfl
  | cons l ls ih =>
    intro h
    have hl := h l (List.mem_cons_self _ _)
    have := ih (fun x hx => h x (List.mem_cons_of_mem _ hx))
    simp only [keptLines, hl]
    simpa using this

theorem unlines_append (xs ys : List Str) : unlines (xs ++ ys) = unlines xs ++ unlines ys := by
  simp [unlines]

theorem peerBlocks_unlines (peers : List Peer) :
    peerBlocks peers = unlines (allPeerLines peers) := by
  induction peers with
  | nil => rfl
  | cons p ps ih =>
    have h1 : peerBlocks (p :: ps) = peerBlock p ++ peerBlocks ps := by simp [peerBlocks]
    have h2 : allPeerLines (p :: ps) = peerLines p ++ allPeerLines ps := by
      simp [allPeerLines]
    rw [h1, h2, unlines_append, ih]
    rfl

theorem allPeerLines_not_interface (peers : List Peer) :
    ∀ l ∈ allPeerLines peers, HasPrefix l "[Interface]".toList = false := by
  intro l hl
  simp only [allPeerLines, List.mem_flatten, List.mem_map] at hl
  obtain ⟨ls, ⟨p, _, rfl⟩, hmem⟩ := hl
  simp only [peerLines, List.mem_cons, List.mem_singleton, List.not_mem_nil, or_false] at hmem
  rcases hmem with rfl | rfl | rfl | rfl <;> simp [HasPrefix, List.isPrefixOf]

theorem allPeerLines_no_newline (peers : List Peer)
    (h : ∀ p ∈ peers, '\n' ∉ p.PublicKey ∧ '\n' ∉ p.AllowedIP) :
    ∀ l ∈ allPeerLines peers, '\n' ∉ l := by
  intro l hl
  simp only [allPeerLines, List.mem_flatten, List.mem_map] at hl
  obtain ⟨ls, ⟨p, hp, rfl⟩, hmem⟩ := hl
  obtain ⟨h1, h2⟩ := h p hp
  simp only [peerLines, List.mem_cons, List.mem_singleton, List.not_mem_nil, or_false] at hmem
  rcases hmem with rfl | rfl | rfl | rfl <;> simp [h1, h2]

/-- C6 as amended. When the text fields that `generateServerConfig`
prints (the `PrivateKey`, `Address` and `NATInterface` of the config, the
`PublicKey` and `AllowedIP` of every peer) hold no line break, extracting
from the rendered text gives the `[Peer]` blocks of the rendering, in
order and whole, without the line break that opens the first of them, and
nothing of the `[Interface]` block; for the empty list it gives the empty
text. -/
theorem C6_extract_of_render (goos : Str) (cfg : Config) (peers : List Peer)
    (h : singleLineFields cfg peers) :
    extractPeerConfig (generateServerConfig goos cfg peers) =
      ((peers.map peerBlock).flatten).drop 1 := by
  obtain ⟨h1, h2, h3, h4⟩ := h
  have hnl : ∀ l ∈ interfaceLines goos cfg ++ allPeerLines peers, '\n' ∉ l := by
    intro l hl
    rcases List.mem_append.1 hl with hi | hp
    · exact interfaceLines_no_newline goos cfg h1 h2 h3 l hi
    · exact allPeerLines_no_newline peers h4 l hp
  have hsplit : Split '\n' (generateServerConfig goos cfg peers) =
      interfaceLines goos cfg ++ (allPeerLines peers ++ [[]]) := by
    rw [generateServerConfig_blocks, interfaceBlock, peerBlocks_unlines, ← unlines_append,
      Split_unlines _ hnl, List.append_assoc]
  rw [extractPeerConfig_eq, hsplit, keptLines_skip _ _ (interfaceLines_not_peer goos cfg)]
  show _ = (peerBlocks peers).drop 1
  rw [peerBlocks_unlines]
  cases peers with
  | nil => simp [allPeerLines, keptLines, HasPrefix, List.isPrefixOf, Join, unlines]
  | cons p ps =>
    have hall : allPeerLines (p :: ps) =
        [] :: "[Peer]".toList :: (("PublicKey = ".toList ++ p.PublicKey) ::
          ("AllowedIPs = ".toList ++ p.AllowedIP) :: allPeerLines ps) := by
      simp [allPeerLines, peerLines]
    have hkeep : keptLines true ((("PublicKey = ".toList ++ p.PublicKey) ::
          ("AllowedIPs = ".toList ++ p.AllowedIP) :: allPeerLines ps) ++ [[]]) =
        (("PublicKey = ".toList ++ p.PublicKey) ::
          ("AllowedIPs = ".toList ++ p.AllowedIP) :: allPeerLines ps) ++ [[]] := by
      apply keptLines_keep
      intro l hl
      simp only [List.cons_append, List.mem_cons, List.mem_append, List.not_mem_nil,
        or_false] at hl
      rcases hl with rfl | rfl | hl | rfl
      · simp [HasPrefix, List.isPrefixOf]
      · simp [HasPrefix, List.isPrefixOf]
      · exact allPeerLines_not_interface ps l hl
      · simp [HasPrefix, List.isPrefixOf]
    have hk : keptLines false (allPeerLines (p :: ps) ++ [[]]) =
        ("[Peer]".toList :: (("PublicKey = ".toList ++ p.PublicKey) ::
          ("AllowedIPs = ".toList ++ p.AllowedIP) :: allPeerLines ps)) ++ [[]] := by
      rw [hall]
      simp only [List.cons_append, keptLines] at hkeep ⊢
      simp only [HasPrefix, List.isPrefixOf] at hkeep ⊢
      simpa using hkeep
    rw [hk, Join_unlines, hall]
    simp [unlines]

/-- C6 as amended, at the sample configuration and the peers alice, bob. -/
theorem C6_extract_of_render_witness :
    singleLineFields sampleCfg [alicePeer, bobPeer] ∧
    extractPeerConfig (generateServerConfig "linux".toList sampleCfg [alicePeer, bobPeer]) =
      ("[Peer]\nPublicKey = pub-a\nAllowedIPs = 10.0.0.2/32\n" ++
        "\n[Peer]\nPublicKey = pub-b\nAllowedIPs = 10.0.0.3/32\n").toList :=
  have h : singleLineFields sampleCfg [alicePeer, bobPeer] := by
    unfold singleLineFields; decide
  ⟨h, (C6_extract_of_render "linux".toList sampleCfg [alicePeer, bobPeer] h).trans
    (by decide)⟩

/-- C6 as stated fails at a config whose `Address` holds a line break
followed by `[Peer]`: the extraction then starts inside the `[Interface]`
block and returns its `ListenPort` line. -/
theorem C6_counterexample_two_line_address :
    generateServerConfig "linux".toList twoLineAddressCfg [alicePeer] =
      ("[Interface]\nPrivateKey = c2VydmVy\nAddress = 10.0.0.1/24\n[Peer]\n" ++
        "ListenPort = 51820\n\n[Peer]\nPublicKey = pub-a\nAllowedIPs = 10.0.0.2/32\n").toList ∧
    extractPeerConfig (generateServerConfig "linux".toList twoLineAddressCfg [alicePeer]) =
      ("[Peer]\nListenPort = 51820\n\n[Peer]\nPublicKey = pub-a\n" ++
        "AllowedIPs = 10.0.0.2/32\n").toList ∧
    extractPeerConfig (generateServerConfig "linux".toList twoLineAddressCfg [alicePeer]) ≠
      (([alicePeer].map peerBlock).flatten).drop 1 ∧
    "ListenPort = 51820".toList ∈
      Split '\n' (extractPeerConfig
        (generateServerConfig "linux".toList twoLineAddressCfg [alicePeer])) := by
  decide

set_option maxRecDepth 100000 in
/-- C9, at the sample configuration with alice rendered and bob appended. -/
theorem C9_server_config_blocks_witness :
    generateServerConfig "linux".toList sampleCfg ([alicePeer] ++ [bobPeer]) =
      ("[Interface]\nPrivateKey = c2VydmVy\nAddress = 10.0.0.1/24\nListenPort = 51820\n" ++
        "\n[Peer]\nPublicKey = pub-a\nAllowedIPs = 10.0.0.2/32\n" ++
        "\n[Peer]\nPublicKey = pub-b\nAllowedIPs = 10.0.0.3/32\n").toList ∧
    generateServerConfig "linux".toList sampleCfg ([alicePeer] ++ [bobPeer]) =
      generateServerConfig "linux".toList sampleCfg [alicePeer] ++
        ([bobPeer].map peerBlock).flatten :=
  ⟨by decide,
    (C9_server_config_blocks "linux".toList sampleCfg [alicePeer] [bobPeer]).2.2.2.2⟩

/-! ## The client configuration -/

theorem generateClientConfig_lines (cfg : Config) (peer : Peer) :
    generateClientConfig cfg peer =
      unlines (clientHeadLines cfg peer) ++ unlines (endpointLines cfg) ++
        unlines clientTailLines := by
  unfold generateClientConfig clientHeadLines endpointLines clientTailLines unlines
  split_ifs <;> simp

theorem unlines_ends (ls : List Str) (l : Str) :
    unlines (ls ++ [l]) = (unlines ls ++ l) ++ ['\n'] := by
  simp [unlines]

theorem Split_head (sep : Char) : ∀ (p z : Str), sep ∉ p →
    ∃ l ls, Split sep (p ++ z) = l :: ls ∧ p.isPrefixOf l = true := by
  intro p
  induction p with
  | nil =>
    intro z _
    cases hs : Split sep z with
    | nil => exact absurd hs (Split_ne_nil sep z)
    | cons l ls => exact ⟨l, ls, by simpa using hs, by simp⟩
  | cons c cs ih =>
    intro z h
    have hc : c ≠ sep := fun e => h (e ▸ List.mem_cons_self _ _)
    obtain ⟨l, ls, hs, hp⟩ := ih z (fun hm => h (List.mem_cons_of_mem _ hm))
    refine ⟨c :: l, ls, ?_, ?_⟩
    · have hs' : Split sep (cs.append z) = l :: ls := hs
      simp only [List.cons_append, Split, if_neg hc]
      rw [hs']
    · simpa using hp

theorem clientHead_ends (cfg : Config) (peer : Peer) :
    ∃ X, unlines (clientHeadLines cfg peer) = X ++ ['\n'] := by
  have : clientHeadLines cfg peer =
      (["[Interface]".toList, "PrivateKey = ".toList ++ peer.PrivateKey,
        "Address = ".toList ++ peer.AllowedIP] ++
        (if cfg.DNS ≠ [] then ["DNS = ".toList ++ cfg.DNS] else []) ++
        [[], "[Peer]".toList]) ++ ["PublicKey = ".toList ++ cfg.PublicKey] := by
    simp [clientHeadLines]
  rw [this, unlines_ends]
  exact ⟨_, rfl⟩

theorem Split_before_tail (X : Str) :
    Split '\n' (X ++ ['\n'] ++ unlines clientTailLines) =
      Split '\n' X ++ (clientTailLines ++ [[]]) := by
  have h : ∀ l ∈ clientTailLines, '\n' ∉ l := by decide
  rw [List.append_assoc, List.singleton_append, Split_append_sep, Split_unlines _ h]

theorem clientHeadLines_no_endpoint (cfg : Config) (peer : Peer) :
    ∀ l ∈ clientHeadLines cfg peer, ¬ isEndpointLine l := by
  simp only [clientHeadLines, isEndpointLine]
  split <;> simp [HasPrefix, List.isPrefixOf]

theorem clientHeadLines_no_newline (cfg : Config) (peer : Peer)
    (h1 : '\n' ∉ peer.PrivateKey) (h2 : '\n' ∉ peer.AllowedIP) (h3 : '\n' ∉ cfg.DNS)
    (h4 : '\n' ∉ cfg.PublicKey) : ∀ l ∈ clientHeadLines cfg peer, '\n' ∉ l := by
  simp only [clientHeadLines]
  split <;> simp [h1, h2, h3, h4]

/-- C7 as amended. For every config and peer the client configuration has
the lines `AllowedIPs = 0.0.0.0/0` and `PersistentKeepalive = 25`, and it
has an `Endpoint = ...` line whenever the endpoint of the config is
non-empty; when the private key and address of the peer and the DNS and
public key of the config hold no line break, it has such a line only if
the endpoint is non-empty. -/
theorem C7_client_config_lines (cfg : Config) (peer : Peer) :
    hasLine (generateClientConfig cfg peer) "AllowedIPs = 0.0.0.0/0".toList ∧
    hasLine (generateClientConfig cfg peer) "PersistentKeepalive = 25".toList ∧
    (cfg.Endpoint ≠ [] → ∃ l, hasLine (generateClientConfig cfg peer) l ∧ isEndpointLine l) ∧
    ('\n' ∉ peer.PrivateKey → '\n' ∉ peer.AllowedIP → '\n' ∉ cfg.DNS →
      '\n' ∉ cfg.PublicKey →
      ((∃ l, hasLine (generateClientConfig cfg peer) l ∧ isEndpointLine l) ↔
        cfg.Endpoint ≠ [])) := by
  obtain ⟨X, hX⟩ := clientHead_ends cfg peer
  have hend : cfg.Endpoint ≠ [] →
      ∃ l, hasLine (generateClientConfig cfg peer) l ∧ isEndpointLine l := by
    intro hE
    have htext : generateClientConfig cfg peer =
        X ++ '\n' :: ("Endpoint = ".toList ++
          (cfg.Endpoint ++ '\n' :: unlines clientTailLines)) := by
      rw [generateClientConfig_lines, hX, endpointLines, if_pos hE]
      simp [unlines]
    obtain ⟨l, ls, hs, hp⟩ := Split_head '\n' "Endpoint = ".toList
      (cfg.Endpoint ++ '\n' :: unlines clientTailLines) (by decide)
    refine ⟨l, ?_, hp⟩
    unfold hasLine
    rw [htext, Split_append_sep, hs]
    simp
  have htail : ∃ Y, generateClientConfig cfg peer = Y ++ ['\n'] ++ unlines clientTailLines := by
    rw [generateClientConfig_lines, hX, endpointLines]
    split
    · exact ⟨X ++ ['\n'] ++ ("Endpoint = ".toList ++ cfg.Endpoint), by simp [unlines]⟩
    · exact ⟨X, by simp [unlines]⟩
  obtain ⟨Y, hY⟩ := htail
  refine ⟨?_, ?_, hend, ?_⟩
  · unfold hasLine
    rw [hY, Split_before_tail]
    simp [clientTailLines]
  · unfold hasLine
    rw [hY, Split_before_tail]
    simp [clientTailLines]
  · intro h1 h2 h3 h4
    refine ⟨?_, hend⟩
    rintro ⟨l, hl, hpre⟩ hE
    have hlines : Split '\n' (generateClientConfig cfg peer) =
        clientHeadLines cfg peer ++ clientTailLines ++ [[]] := by
      have hE' : ¬ cfg.Endpoint ≠ [] := fun hn => hn hE
      rw [generateClientConfig_lines, endpointLines, if_neg hE']
      have : unlines (clientHeadLines cfg peer) ++ unlines [] ++ unlines clientTailLines =
          unlines (clientHeadLines cfg peer ++ clientTailLines) := by
        simp [unlines]
      rw [this, Split_unlines]
      intro x hx
      rcases List.mem_append.1 hx with hh | ht
      · exact clientHeadLines_no_newline cfg peer h1 h2 h3 h4 x hh
      · exact (by decide : ∀ y ∈ clientTailLines, '\n' ∉ y) x ht
    unfold hasLine at hl
    rw [hlines] at hl
    simp only [List.mem_append, List.mem_singleton] at hl
    rcases hl with (hh | ht) | rfl
    · exact clientHeadLines_no_endpoint cfg peer l hh hpre
    · revert hpre; revert l; unfold isEndpointLine; decide
    · revert hpre; unfold isEndpointLine; decide

set_option maxRecDepth 100000 in
/-- C7 as amended, at the sample configuration (endpoint set) and alice. -/
theorem C7_client_config_lines_witness :
    ('\n' ∉ alicePeer.PrivateKey ∧ '\n' ∉ alicePeer.AllowedIP ∧ '\n' ∉ sampleCfg.DNS ∧
      '\n' ∉ sampleCfg.PublicKey) ∧ sampleCfg.Endpoint ≠ [] ∧
    hasLine (generateClientConfig sampleCfg alicePeer)
      "Endpoint = vpn.example.org:51820".toList ∧
    ((∃ l, hasLine (generateClientConfig sampleCfg alicePeer) l ∧ isEndpointLine l) ↔
      sampleCfg.Endpoint ≠ []) :=
  ⟨by decide, by decide, by unfold hasLine; decide,
    (C7_client_config_lines sampleCfg alicePeer).2.2.2 (by decide) (by decide) (by decide)
      (by decide)⟩

set_option maxRecDepth 100000 in
/-- C7 as stated fails at a config with an empty endpoint whose `DNS` holds
a line break followed by `Endpoint = ...`: the client configuration then
has an `Endpoint` line. -/
theorem C7_counterexample_two_line_dns :
    twoLineDnsCfg.Endpoint = [] ∧
    generateClientConfig twoLineDnsCfg alicePeer =
      ("[Interface]\nPrivateKey = priv-a\nAddress = 10.0.0.2/32\nDNS = 1.1.1.1\n" ++
        "Endpoint = 203.0.113.9:51820\n\n[Peer]\nPublicKey = cHVibGlj\n" ++
        "AllowedIPs = 0.0.0.0/0\nPersistentKeepalive = 25\n").toList ∧
    hasLine (generateClientConfig twoLineDnsCfg alicePeer)
      "Endpoint = 203.0.113.9:51820".toList ∧
    isEndpointLine "Endpoint = 203.0.113.9:51820".toList ∧
    ¬ ((∃ l, hasLine (generateClientConfig twoLineDnsCfg alicePeer) l ∧ isEndpointLine l) ↔
      twoLineDnsCfg.Endpoint ≠ []) := by
  have h1 : twoLineDnsCfg.Endpoint = [] := by decide
  have h3 : hasLine (generateClientConfig twoLineDnsCfg alicePeer)
      "Endpoint = 203.0.113.9:51820".toList := by unfold hasLine; decide
  have h4 : isEndpointLine "Endpoint = 203.0.113.9:51820".toList := by
    unfold isEndpointLine; decide
  refine ⟨h1, by decide, h3, h4, ?_⟩
  intro hiff
  exact hiff.1 ⟨_, h3, h4⟩ h1

/-! ## Listing and the enabled projection -/

theorem EnabledPeers_rows (s : Store) :
    EnabledPeers s = .ok ((s.filter (fun r => r.enabled)).map (fun r =>
      Peer.mk [] [] r.public_key [] r.allowed_ip false 0)) := rfl

set_option maxRecDepth 100000 in
/-- C10, the code at the table of a set-back clock: both peers are enabled,
`ListPeers` (ordered by `created_at`) returns bob before alice, while
`EnabledPeers`, whose query has no `ORDER BY`, returns alice before bob, and
`ServerConfig` renders the blocks in that order. -/
theorem C10_enabled_peers_table_order :
    clockStepStore.map (fun r => (r.name, r.enabled, r.created_at)) =
      [("alice".toList, true, 5), ("bob".toList, true, 3)] ∧
    publicKeys (ListPeers clockStepStore) = .ok ["pub-b".toList, "pub-a".toList] ∧
    publicKeys (EnabledPeers clockStepStore) = .ok ["pub-a".toList, "pub-b".toList] ∧
    ServerConfig "darwin".toList sampleCfg clockStepStore =
      .ok ("[Interface]\nPrivateKey = c2VydmVy\nAddress = 10.0.0.1/24\nListenPort = 51820\n" ++
        "\n[Peer]\nPublicKey = pub-a\nAllowedIPs = 10.0.0.2/32\n" ++
        "\n[Peer]\nPublicKey = pub-b\nAllowedIPs = 10.0.0.3/32\n").toList := by
  decide

/-! ## The text form is asked of IPv4 addresses only -/

theorem CIDRMask_128_shape : ∀ n, n < 129 →
    (CIDRMask n 128).length = 16 ∧ (∀ x ∈ CIDRMask n 128, x ≤ 255) ∧
    ((CIDRMask n 128).getD 10 0 = 255 → (CIDRMask n 128).take 10 = List.replicate 10 255) := by
  decide

theorem land_eq_255 {x m : Nat} (hx : x ≤ 255) (hm : m ≤ 255) (h : x &&& m = 255) :
    x = 255 ∧ m = 255 := by
  have h1 : x &&& m ≤ x := Nat.and_le_left
  have h2 : x &&& m ≤ m := Nat.and_le_right
  omega

/-- In `allocateIPTx` the text form is only asked of addresses that have a
4-byte form: when the check of the base address passes, the address of the
CIDR converts with `To4` too, so `IP.String` prints it dotted. -/
theorem To4_of_base {cidr : CIDR} {ip : IP} {ipNet : IPNet}
    (hp : ParseCIDR cidr = some (ip, ipNet)) (h4 : IP.To4 (IP.Mask ip ipNet.Mask) ≠ []) :
    IP.To4 ip ≠ [] := by
  cases cidr with
  | malformed => simp [ParseCIDR] at hp
  | v4 a b c d ones =>
    simp only [ParseCIDR] at hp
    split at hp
    · simp only [Option.some.injEq, Prod.mk.injEq] at hp
      rw [← hp.1]
      simp [IP.To4, v4InV6Prefix]
    · cases hp
  | v6 addr ones =>
    simp only [ParseCIDR] at hp
    split at hp
    · rename_i hc
      obtain ⟨hlen, hbytes, hones⟩ := hc
      simp only [Option.some.injEq, Prod.mk.injEq] at hp
      obtain ⟨h1, h2⟩ := hp
      subst h1; subst h2
      obtain ⟨hml, hmb, hm10⟩ := CIDRMask_128_shape ones (by omega)
      simp only at h4
      generalize CIDRMask ones 128 = m at h4 hml hmb hm10
      match addr, hlen, m, hml with
      | [x0, x1, x2, x3, x4, x5, x6, x7, x8, x9, x10, x11, x12, x13, x14, x15], _,
        [m0, m1, m2, m3, m4, m5, m6, m7, m8, m9, m10, m11, m12, m13, m14, m15], _ =>
        simp only [List.all_cons, List.all_nil, Bool.and_true, Bool.and_eq_true,
          decide_eq_true_eq] at hbytes
        simp [IP.Mask, IP.To4] at h4
        simp at hmb hm10
        obtain ⟨z0, z1, z2, z3, z4, z5, z6, z7, z8, z9, e10, e11⟩ := h4
        obtain ⟨hx10, hmm10⟩ := land_eq_255 (by omega) (by omega) e10
        obtain ⟨hx11, _⟩ := land_eq_255 (by omega) (by omega) e11
        obtain ⟨r0, r1, r2, r3, r4, r5, r6, r7, r8, r9⟩ := hm10 hmm10
        subst r0 r1 r2 r3 r4 r5 r6 r7 r8 r9
        rw [land_255 (by omega)] at z0 z1 z2 z3 z4 z5 z6 z7 z8 z9
        simp [IP.To4, z0, z1, z2, z3, z4, z5, z6, z7, z8, z9, hx10, hx11]
    · cases hp

/-! ## Extraction from an arbitrary text -/

theorem inPeerSection_iff (lines : List Str) (i : Nat) :
    inPeerSection lines i = true ↔
      ∃ j, j ≤ i ∧ isPeerHeader (lines.getD j []) = true ∧
        ∀ k, j < k → k ≤ i → isInterfaceHeader (lines.getD k []) = false := by
  simp only [inPeerSection, List.any_eq_true, List.all_eq_true, List.mem_range,
    Bool.and_eq_true, Bool.or_eq_true, decide_eq_true_eq, Bool.not_eq_true']
  constructor
  · rintro ⟨j, hj, hp, hall⟩
    refine ⟨j, by omega, hp, ?_⟩
    intro k hjk hki
    rcases hall k (by omega) with h | h
    · omega
    · exact h
  · rintro ⟨j, hj, hp, hall⟩
    refine ⟨j, by omega, hp, ?_⟩
    intro k hk
    by_cases hkj : k ≤ j
    · exact Or.inl hkj
    · exact Or.inr (hall k (by omega) (by omega))

theorem inPeerSection_append (pre post : List Str) (i : Nat) (hi : i < pre.length) :
    inPeerSection (pre ++ post) i = inPeerSection pre i := by
  have hget : ∀ k, k ≤ i → (pre ++ post).getD k [] = pre.getD k [] := fun k hk =>
    List.getD_append pre post [] k (by omega)
  rw [Bool.eq_iff_iff, inPeerSection_iff, inPeerSection_iff]
  constructor
  · rintro ⟨j, hj, hp, hall⟩
    refine ⟨j, hj, by rw [← hget j hj]; exact hp, ?_⟩
    intro k hjk hki
    rw [← hget k hki]
    exact hall k hjk hki
  · rintro ⟨j, hj, hp, hall⟩
    refine ⟨j, hj, by rw [hget j hj]; exact hp, ?_⟩
    intro k hjk hki
    rw [hget k hki]
    exact hall k hjk hki

theorem inPeerSection_last (pre : List Str) (l : Str) :
    inPeerSection (pre ++ [l]) pre.length =
      (if isPeerHeader l = true then true
       else if isInterfaceHeader l = true then false
       else lastInPeerSection pre) := by
  have hlast : (pre ++ [l]).getD pre.length [] = l := by
    rw [List.getD_append_right pre [l] [] pre.length (le_refl _)]
    simp
  have hget : ∀ k, k < pre.length → (pre ++ [l]).getD k [] = pre.getD k [] := fun k hk =>
    List.getD_append pre [l] [] k hk
  by_cases hp : isPeerHeader l = true
  · rw [if_pos hp, inPeerSection_iff]
    exact ⟨pre.length, le_refl _, by rw [hlast]; exact hp, fun k h1 h2 => by omega⟩
  · rw [if_neg hp]
    by_cases hi : isInterfaceHeader l = true
    · rw [if_pos hi]
      rw [Bool.eq_false_iff]
      intro hin
      obtain ⟨j, hj, hpj, hall⟩ := (inPeerSection_iff _ _).1 hin
      by_cases hjn : j = pre.length
      · rw [hjn, hlast] at hpj
        exact hp hpj
      · have := hall pre.length (by omega) (le_refl _)
        rw [hlast, hi] at this
        cases this
    · rw [if_neg hi]
      have hi' : isInterfaceHeader l = false := by simpa using hi
      cases hlen : pre.length with
      | zero =>
        simp only [lastInPeerSection, hlen]
        rw [Bool.eq_false_iff]
        intro hin
        obtain ⟨j, hj, hpj, _⟩ := (inPeerSection_iff _ _).1 hin
        have hj0 : j = pre.length := by omega
        rw [hj0, hlast] at hpj
        exact hp hpj
      | succ n =>
        simp only [lastInPeerSection, hlen]
        rw [Bool.eq_iff_iff, inPeerSection_iff, inPeerSection_iff]
        constructor
        · rintro ⟨j, hj, hpj, hall⟩
          have hjn : j ≠ pre.length := by
            intro e
            rw [e, hlast] at hpj
            exact hp hpj
          refine ⟨j, by omega, by rw [← hget j (by omega)]; exact hpj, ?_⟩
          intro k hjk hkn
          rw [← hget k (by omega)]
          exact hall k hjk (by omega)
        · rintro ⟨j, hj, hpj, hall⟩
          refine ⟨j, by omega, by rw [hget j (by omega)]; exact hpj, ?_⟩
          intro k hjk hkn
          by_cases hk : k = pre.length
          · rw [hk, hlast]; exact hi'
          · rw [hget k (by omega)]
            exact hall k hjk (by omega)

theorem peerSectionLines_concat (pre : List Str) (l : Str) :
    peerSectionLines (pre ++ [l]) =
      peerSectionLines pre ++
        (if inPeerSection (pre ++ [l]) pre.length = true then [l] else []) := by
  unfold peerSectionLines
  rw [List.length_append, List.length_singleton, List.range_succ, List.filterMap_append]
  congr 1
  · apply List.filterMap_congr
    intro i hi
    have hi' : i < pre.length := List.mem_range.1 hi
    rw [inPeerSection_append pre [l] i hi', List.getElem?_append_left hi']
  · by_cases h : inPeerSection (pre ++ [l]) pre.length = true
    · simp [List.filterMap_cons, h]
    · simp [List.filterMap_cons, h]

theorem lastInPeerSection_concat (pre : List Str) (l : Str) :
    lastInPeerSection (pre ++ [l]) = inPeerSection (pre ++ [l]) pre.length := by
  simp [lastInPeerSection]

theorem foldl_extractStep_sections (lines : List Str) :
    lines.foldl extractStep (false, []) = (lastInPeerSection lines, peerSectionLines lines) := by
  induction lines using List.reverseRecOn with
  | nil => rfl
  | append_singleton pre l ih =>
    rw [List.foldl_append, ih, lastInPeerSection_concat, peerSectionLines_concat,
      inPeerSection_last]
    simp only [List.foldl_cons, List.foldl_nil, extractStep, isPeerHeader, isInterfaceHeader]
    split_ifs <;> simp_all

/-- C11. For every text, `extractPeerConfig` returns, joined by line
breaks and in their order, exactly the lines that fall inside `[Peer]`
sections: line `i` is returned if and only if some line `j` at or before it
starts with `[Peer]` and no line after `j` up to `i` starts with
`[Interface]`; a text with no line starting with `[Peer]` yields the empty
text. -/
theorem C11_extract_peer_sections (config : Str) :
    extractPeerConfig config = Join (peerSectionLines (Split '\n' config)) "\n".toList ∧
    (∀ (lines : List Str) (i : Nat), inPeerSection lines i = true ↔
      ∃ j, j ≤ i ∧ isPeerHeader (lines.getD j []) = true ∧
        ∀ k, j < k → k ≤ i → isInterfaceHeader (lines.getD k []) = false) ∧
    ((∀ l ∈ Split '\n' config, isPeerHeader l = false) → extractPeerConfig config = []) := by
  have hmain : extractPeerConfig config =
      Join (peerSectionLines (Split '\n' config)) "\n".toList := by
    simp only [extractPeerConfig, foldl_extractStep_sections]
  refine ⟨hmain, inPeerSection_iff, ?_⟩
  intro hno
  have hnone : peerSectionLines (Split '\n' config) = [] := by
    unfold peerSectionLines
    rw [List.filterMap_eq_nil_iff]
    intro i hi
    have hi' : i < (Split '\n' config).length := List.mem_range.1 hi
    have hfalse : inPeerSection (Split '\n' config) i = false := by
      rw [Bool.eq_false_iff]
      intro hin
      obtain ⟨j, hj, hpj, _⟩ := (inPeerSection_iff _ _).1 hin
      have hjl : j < (Split '\n' config).length := by omega
      have hmem : (Split '\n' config).getD j [] ∈ Split '\n' config := by
        rw [List.getD_eq_getElem _ _ hjl]
        exact List.getElem_mem _
      rw [hno _ hmem] at hpj
      cases hpj
    simp [hfalse]
  rw [hmain, hnone]
  rfl

set_option maxRecDepth 100000 in
/-- C11, at a hand-written text with a comment line, an `[Interface]` block
between two peers and a header carrying a trailing comment, and at a text
with no `[Peer]` line. -/
theorem C11_extract_peer_sections_witness :
    extractPeerConfig handEditedText =
      "[Peer]\nPublicKey = A\n[Peer] # laptop\nAllowedIPs = 10.0.0.9/32".toList ∧
    peerSectionLines (Split '\n' handEditedText) =
      ["[Peer]".toList, "PublicKey = A".toList, "[Peer] # laptop".toList,
        "AllowedIPs = 10.0.0.9/32".toList] ∧
    (∀ l ∈ Split '\n' "[Interface]\nAddress = 10.0.0.1/24".toList, isPeerHeader l = false) ∧
    extractPeerConfig "[Interface]\nAddress = 10.0.0.1/24".toList = [] :=
  ⟨(C11_extract_peer_sections handEditedText).1.trans (by decide), by decide, by decide,
    (C11_extract_peer_sections "[Interface]\nAddress = 10.0.0.1/24".toList).2.2 (by decide)⟩

/-! ## Creations one after the other, and on one snapshot -/

/-- Two successful creations run one after the other, the second on the
table the first left, return peers that differ in address, public key,
name and identifier. -/
theorem serial_creations_distinct {s s1 s2 : Store} {n1 n2 : Str} {cidr : CIDR}
    {e1 e2 : Env} {p1 p2 : Peer}
    (h1 : CreatePeer s n1 cidr e1 = (.ok p1, s1))
    (h2 : CreatePeer s1 n2 cidr e2 = (.ok p2, s2)) :
    p1.AllowedIP ≠ p2.AllowedIP ∧ p1.PublicKey ≠ p2.PublicKey ∧ p1.Name ≠ p2.Name ∧
      p1.ID ≠ p2.ID := by
  obtain ⟨_, _, _, _, _, _, _, _, _, _, hs1⟩ := CreatePeer_ok h1
  obtain ⟨hname, priv, pub, id, ip, _, _, hal, hpeer, hins, _⟩ := CreatePeer_ok h2
  have hmem : peerRow p1 ∈ s1 := by rw [hs1]; simp
  have haddr : p1.AllowedIP ≠ p2.AllowedIP := by
    have := allocateIPTx_fresh hal (peerRow p1) hmem
    rw [hpeer]
    exact this
  have hn : p1.Name ≠ p2.Name := by
    have := hname (peerRow p1) hmem
    rw [hpeer]
    exact this
  unfold insertRow at hins
  split at hins
  · cases hins
  · rename_i hany
    have hrow := fun hx => hany (List.any_eq_true.2 ⟨peerRow p1, hmem, hx⟩)
    refine ⟨haddr, ?_, hn, ?_⟩
    · intro hk
      apply hrow
      simp [peerRow, hk]
    · intro hk
      apply hrow
      simp [peerRow, hk]

/-- Two creations that both read the same table are given the same
address: the allocation depends on the table and the prefix alone. -/
theorem same_snapshot_same_address {s s1 s2 : Store} {n1 n2 : Str} {cidr : CIDR}
    {e1 e2 : Env} {p1 p2 : Peer}
    (h1 : CreatePeer s n1 cidr e1 = (.ok p1, s1))
    (h2 : CreatePeer s n2 cidr e2 = (.ok p2, s2)) :
    p1.AllowedIP = p2.AllowedIP := by
  obtain ⟨_, _, _, _, ip1, _, _, hal1, hp1, _, _⟩ := CreatePeer_ok h1
  obtain ⟨_, _, _, _, ip2, _, _, hal2, hp2, _, _⟩ := CreatePeer_ok h2
  rw [hal1] at hal2
  have : ip1 = ip2 := by simpa using hal2
  rw [hp1, hp2, this]

end TunnelManager
